import Mathlib

/-!
Verification of the pdfalcon PDF library's specification against its source.

The development shallowly embeds the relevant parts of `pdfalcon/pdf.py`,
`pdfalcon/types.py` and `pdfalcon/encoding.py`:

* byte strings are modelled as `List Char` (one `Char` per byte; all modelled
  payloads are ASCII except the header's binary-marker bytes, which are carried
  as their individual UTF-8 code units so that list length equals encoded byte
  length, exactly as `len(formatted_header.encode())` counts them);
* the name/string codec of `types.py` works over `List Nat` bytes;
* mutable Python objects (the free-object list, the cross-reference counter,
  the font cache) become explicit state records with one Lean function per
  Python method;
* all recursion is structural (on fuel where the Python loop is unbounded), so
  every definition evaluates inside the kernel.
-/

namespace Pdfalcon

/-! ### Decimal rendering (Python `str`/`%d` on non-negative integers) -/

/-- Character for a decimal digit value. -/
def digitChar (n : Nat) : Char := Char.ofNat (48 + n)

/-- Fuel-driven accumulator loop producing the decimal digits of `n`. -/
def natReprAux : Nat → Nat → List Char → List Char
  | 0, _, acc => acc
  | fuel + 1, n, acc =>
    if n < 10 then digitChar n :: acc
    else natReprAux fuel (n / 10) (digitChar (n % 10) :: acc)

/-- Decimal rendering of a natural number, as Python's `str` of a
non-negative `int` produces it (no sign, no leading zeros). -/
def natRepr (n : Nat) : List Char := natReprAux (n + 1) n []

/-- Left-pad with `'0'` to width `w`, as Python's `"%010d"`/`"%05d"` do. -/
def padZeros (w : Nat) (s : List Char) : List Char :=
  List.replicate (w - s.length) '0' ++ s

/-! ### Value codec over raw bytes (`pdfalcon/types.py`) -/

/-- A byte, written as its numeric value. -/
abbrev Byte := Nat

/-- Bytes excluded from PDF name atoms: `#` `%` `/` `(` `)` `<` `>` `[` `]`
and the two curly brackets (codes 35, 37, 47, 40, 41, 60, 62, 91, 93, 123,
125), per `ALLOWED_NAME_CHARS` in `types.py`. -/
def nameExcluded : List Byte := [35, 37, 47, 40, 41, 60, 62, 91, 93, 123, 125]

/-- Membership in `ALLOWED_NAME_CHARS = set(range(33,127)) - excluded`. -/
def allowedNameChar (b : Byte) : Bool :=
  33 ≤ b && b ≤ 126 && !(nameExcluded.contains b)

/-- Uppercase hexadecimal digit, as `%02X` renders each nibble. -/
def hexDigit (n : Nat) : Byte := if n < 10 then 48 + n else 55 + n

/-- The `#HH` escape of one byte (`b"#%02X" % b` in `PdfName.__bytes__`). -/
def escByte (b : Byte) : List Byte := [35, hexDigit (b / 16), hexDigit (b % 16)]

/-- `PdfName.__bytes__` (types.py lines 930-938): a solidus, then each atom
byte kept when allowed and `#HH`-escaped otherwise. -/
def pdfNameBytes (atom : List Byte) : List Byte :=
  47 :: atom.flatMap (fun b => if allowedNameChar b then [b] else escByte b)

/-- PDF whitespace bytes (`b'\x00\t\n\x0c\r '` in `read_pdf_tokens`). -/
def isWsB (b : Byte) : Bool := b ∈ ([0, 9, 10, 12, 13, 32] : List Byte)

/-- PDF delimiter bytes (`b'()<>[]\x7b\x7d/%'` in `read_pdf_tokens`). -/
def isDelimB (b : Byte) : Bool :=
  b ∈ ([40, 41, 60, 62, 91, 93, 123, 125, 47, 37] : List Byte)

/-- One step of the token reader over bytes: from the suffix starting at
absolute index `i`, skip whitespace, then yield either a single delimiter
byte or a maximal run of regular bytes, together with the index just past
the token's last byte (the cursor position the generator leaves behind). -/
def nextTokB : List Byte → Nat → List Byte × Nat
  | [], i => ([], i)
  | b :: bs, i =>
    if isWsB b then nextTokB bs (i + 1)
    else if isDelimB b then ([b], i + 1)
    else
      let w := (b :: bs).takeWhile (fun x => !(isWsB x) && !(isDelimB x))
      (w, i + w.length)

/-- The name branch of `parse_pdf_object` (types.py lines 168-176) applied to
a buffer holding `s`: the first token must be the solidus; the atom is the
next token, and the recorded offsets must show no gap between the solidus
and the atom (`solidus_end_offset == name_end_offset - len(name)`), which
rejects intervening whitespace.  The atom is returned verbatim; the source
performs no `#HH` unescaping. -/
def parseNameAtom (s : List Byte) : Option (List Byte) :=
  let t₁ := nextTokB s 0
  if t₁.1 = [47] then
    let t₂ := nextTokB (s.drop t₁.2) t₁.2
    if t₁.2 = t₂.2 - t₂.1.length ∧ t₂.1.all (· < 128) then some t₂.1 else none
  else none

/-- UTF-16BE code units of one scalar value, as Python's
`str.encode('utf_16_be')` emits them (surrogate pair above U+FFFF). -/
def charUtf16 (c : Char) : List Byte :=
  let v := c.toNat
  if v < 65536 then [v / 256, v % 256]
  else
    let w := v - 65536
    let hi := 55296 + w / 1024
    let lo := 56320 + w % 1024
    [hi / 256, hi % 256, lo / 256, lo % 256]

/-- UTF-16BE encoding of a payload. -/
def utf16be : List Char → List Byte
  | [] => []
  | c :: cs => charUtf16 c ++ utf16be cs

/-- `PdfLiteralString.__bytes__` (types.py lines 399-400):
`b'(%b)' % self.value.encode('utf_16_be')` - the UTF-16BE bytes of the
payload between parentheses, with no byte-order mark and no ASCII branch. -/
def pdfLiteralStringBytes (s : List Char) : List Byte :=
  40 :: (utf16be s ++ [41])

/-- Control bytes in the sense of the spec's literal-string rule. -/
def isControlChar (c : Char) : Bool := c.toNat < 32 || c.toNat = 127

/-- Paren-balance check: every prefix has at least as many `(` as `)`, and
the whole payload has equally many. -/
def parenBalancedAux : List Char → Int → Bool
  | [], d => d = 0
  | c :: cs, d =>
    if c = '(' then parenBalancedAux cs (d + 1)
    else if c = ')' then d > 0 && parenBalancedAux cs (d - 1)
    else parenBalancedAux cs d

/-- Whether the payload's parentheses are balanced. -/
def parenBalanced (s : List Char) : Bool := parenBalancedAux s 0

/-- Modelled from the spec: "Literal string: if the payload is ASCII and
contains no unbalanced parens or control bytes, write payload verbatim
between `(` and `)`; otherwise prepend UTF-16BE BOM `FE FF` and write the
UTF-16BE encoding."  Stated for comparison against
`pdfLiteralStringBytes`. -/
def specLiteralStringBytes (s : List Char) : List Byte :=
  if s.all (fun c => c.toNat ≤ 127) && parenBalanced s
      && s.all (fun c => !isControlChar c) then
    40 :: (s.map Char.toNat ++ [41])
  else
    40 :: (254 :: 255 :: utf16be s ++ [41])

/-! ### Document-scoped font cache (`PageObject.add_font`, pdf.py 1436-1448)

The Python method looks the requested name up in `self.pdf_file.fonts`.  On a
miss it builds a `Font` (whose `setup` allocates one new indirect object) and
then stores `self` - the *page* - under the name; on a hit it binds the cached
entry to the local variable `font`.  Either way the alias written into the
page's resources is `font.pdf_object.ref`.  The model keeps, for each cached
name, the `(object number, generation)` of the stored entity's `pdf_object`;
because the source stores the page, that is the page's reference. -/

/-- State of the document-level font cache together with the next object
number the body would hand out (`FileBody.add_pdf_object` uses max + 1). -/
structure FontCacheState where
  nextObjNum : Nat
  fonts : List (List Char × (Nat × Nat))

/-- `PageObject.add_font` for a base-14 font name: returns the updated state
and the reference recorded under the page's new `/F{n}` alias
(`font.pdf_object.ref` in the source).  `pageRef` is the calling page's own
`pdf_object.ref` - the value of `self...pdf_object.ref` for the entity the
source caches with `self.pdf_file.fonts[font_name] = self`. -/
def add_font (st : FontCacheState) (pageRef : Nat × Nat) (name : List Char) :
    FontCacheState × (Nat × Nat) :=
  match st.fonts.lookup name with
  | none =>
    let fontRef := (st.nextObjNum, 0)
    (⟨st.nextObjNum + 1, st.fonts ++ [(name, pageRef)]⟩, fontRef)
  | some cachedRef => (st, cachedRef)

/-! ### Free-object list (`FileBody`, pdf.py 1044-1078)

Python objects are heap references; the model identifies each
`PdfIndirectObject` of a body by its creation index in `objs`, and
`nextFree` holds the index of `next_free_object`. -/

/-- The fields of a `PdfIndirectObject` relevant to the free list. -/
structure FreeObj where
  num : Nat
  gen : Nat
  free : Bool
  nextFree : Option Nat

/-- A `FileBody`'s objects (in creation order; the zeroth object is created
first, at index 0) and the index of `free_object_list_tail`. -/
structure BodyState where
  objs : List FreeObj
  tail : Nat

/-- Replace the element at index `i` by `f` of it. -/
def modifyAt (l : List FreeObj) (i : Nat) (f : FreeObj → FreeObj) : List FreeObj :=
  match l, i with
  | [], _ => []
  | x :: xs, 0 => f x :: xs
  | x :: xs, i + 1 => x :: modifyAt xs i f

/-- `FileBody.setup`: `make_free_object(0, 65535)` creates the zeroth object,
makes it both the zeroth marker and the list tail, and releases it, which
points its `next_free_object` at itself and leaves it the tail. -/
def body_setup : BodyState := ⟨[⟨0, 65535, true, some 0⟩], 0⟩

/-- Largest object number present (`sorted(self.objects)[-1]` takes the
largest key; object numbers alone determine it on the construction path). -/
def maxObjNum (l : List FreeObj) : Nat := l.foldr (fun o m => max o.num m) 0

/-- `FileBody.add_pdf_object`: attach a fresh in-use object numbered one past
the current maximum, generation 0. -/
def add_pdf_object (s : BodyState) : BodyState :=
  { s with objs := s.objs ++ [⟨maxObjNum s.objs + 1, 0, false, none⟩] }

/-- `FileBody.release_pdf_object` on the object at index `i`: the object's
`next_free_object` becomes the zeroth object (index 0) and it is marked
free; then the old tail's `next_free_object` is pointed at it and it
becomes the new tail - in exactly this order, as in the source. -/
def release_pdf_object (s : BodyState) (i : Nat) : BodyState :=
  let objs₁ := modifyAt s.objs i (fun o => { o with nextFree := some 0, free := true })
  let objs₂ := modifyAt objs₁ s.tail (fun o => { o with nextFree := some i })
  ⟨objs₂, i⟩

/-- `next_free_object` of the object at index `i`, defaulting to 0 when the
index is invalid or the field unset (never exercised on free objects of
reachable states). -/
def stepFree (s : BodyState) (i : Nat) : Nat :=
  ((s.objs.get? i).bind FreeObj.nextFree).getD 0

/-- Number of free entries of the body. -/
def numFree (s : BodyState) : Nat := (s.objs.filter (·.free)).length

/-- States reachable through `setup`, `add_pdf_object` and
`release_pdf_object`, the latter restricted - this is the amendment - to
objects that are present and not already free. -/
inductive ReachableBody : BodyState → Prop where
  | setup : ReachableBody body_setup
  | add {s : BodyState} : ReachableBody s → ReachableBody (add_pdf_object s)
  | release {s : BodyState} (i : Nat) (hi : i < s.objs.length)
      (hfree : ∀ o, s.objs.get? i = some o → o.free = false) :
      ReachableBody s → ReachableBody (release_pdf_object s i)

/-- The `next_free_object` pointer held by the object at index `i`. -/
def nextOf (s : BodyState) (i : Nat) : Option Nat :=
  (s.objs.get? i).bind FreeObj.nextFree

/-- The free-list invariant: `L` lists the indices of the free objects in
linked-list order.  It starts at the zeroth object, holds exactly the free
objects without repetition, ends at the `free_object_list_tail`, and
following `next_free_object` along `L` and once more from its last element
returns to index 0, closing the cycle. -/
structure FreeInv (s : BodyState) (L : List Nat) : Prop where
  headz : L.head? = some 0
  nodup : L.Nodup
  bounded : ∀ i ∈ L, i < s.objs.length
  freeIff : ∀ i o, s.objs.get? i = some o → (o.free = true ↔ i ∈ L)
  tailIs : L.getLast? = some s.tail
  links : List.Chain' (fun a b => nextOf s a = some b) (L ++ [0])
  count : numFree s = L.length
  zeroth : ∀ o, s.objs.get? 0 = some o → o.num = 0 ∧ o.gen = 65535

/-! ### Cross-reference size counter (`CrtSection`/`FileTrailer`, pdf.py
1110-1135 and 1237-1245) -/

/-- A cross-reference section's subsections (each a list of entry keys) and
the owning section's trailer size counter. -/
structure CrtState where
  subsections : List (List (Nat × Nat))
  size : Nat

/-- State right after `FileSection.__init__` builds `CrtSection` and
`FileTrailer`: no subsections, `PdfInteger()` size 0. -/
def crt_initial : CrtState := ⟨[], 0⟩

/-- Apply `f` to the last element of the list (`self.subsections[-1]`; the
list is never empty when the source runs this). -/
def modifyLast (f : List (Nat × Nat) → List (Nat × Nat)) :
    List (List (Nat × Nat)) → List (List (Nat × Nat))
  | [] => []
  | [x] => [f x]
  | x :: y :: t => x :: modifyLast f (y :: t)

/-- `CrtSection.add_pdf_object`: append one entry for the given object key to
the last subsection and increment the trailer's size by one. -/
def crt_add (s : CrtState) (k : Nat × Nat) : CrtState :=
  ⟨modifyLast (· ++ [k]) s.subsections, s.size + 1⟩

/-- `CrtSection.setup`: create the single subsection and add the zeroth
object's entry through `add_pdf_object`. -/
def crt_setup : CrtState := crt_add ⟨[[]], 0⟩ (0, 65535)

/-- Total number of cross-reference entries across all subsections. -/
def totalEntries (s : CrtState) : Nat := (s.subsections.map List.length).sum

/-- The crt state after `setup` followed by one `add_pdf_object` per key in
`ks`. -/
def crt_after (ks : List (Nat × Nat)) : CrtState := ks.foldl crt_add crt_setup

/-! ### Per-section object keys and trailer sizes (`FileSection`, pdf.py) -/

/-- A file section's body object keys (zeroth included) and its trailer's
size counter. -/
structure Sec6 where
  keys : List (Nat × Nat)
  size : Nat

/-- Largest object number among the keys. -/
def maxKeyNum (ks : List (Nat × Nat)) : Nat := ks.foldr (fun k m => max k.1 m) 0

/-- `FileSection.setup`: the body's zeroth object `(0, 65535)` and its single
crt entry; the trailer size counter ends at 1. -/
def sec6_setup : Sec6 := ⟨[(0, 65535)], 1⟩

/-- `FileSection.add_pdf_object`: `FileBody.add_pdf_object` attaches a new
object numbered one past this section's maximum at generation 0, and
`CrtSection.add_pdf_object` bumps this section's trailer size. -/
def sec6_add (s : Sec6) : Sec6 :=
  ⟨s.keys ++ [(maxKeyNum s.keys + 1, 0)], s.size + 1⟩

/-- Section state after `setup` and `n` further `add_pdf_object` calls. -/
def sec6_after (n : Nat) : Sec6 := sec6_add^[n] sec6_setup

/-- A `PdfFile`'s sections for size accounting. -/
structure File6 where
  sections : List Sec6

/-- `PdfFile.setup`: one section set up, then `DocumentCatalog.setup` adds
the page-tree root and the catalog object to it. -/
def file6_setup : File6 := ⟨[sec6_add (sec6_add sec6_setup)]⟩

/-- `PdfFile.add_update` (appending a fresh `FileSection`) directly followed
by that section's `setup`, which is the only way the source can serialize
the update. -/
def file6_add_update_setup (f : File6) : File6 := ⟨f.sections ++ [sec6_setup]⟩

/-- Apply `sec6_add` to the last section of the list. -/
def modifyLastSec : List Sec6 → List Sec6
  | [] => []
  | [x] => [sec6_add x]
  | x :: y :: t => x :: modifyLastSec (y :: t)

/-- `PdfFile.add_pdf_object` delegates to `self.sections[-1].add_pdf_object`. -/
def file6_add (f : File6) : File6 := ⟨modifyLastSec f.sections⟩

/-- Largest object number in use across all sections. -/
def file6_max (f : File6) : Nat := f.sections.foldr (fun s m => max (maxKeyNum s.keys) m) 0

/-! ### Byte-level serializer (`PdfFile.format`, `FileSection.format`,
`FileBody.format`, `CrtSection.format`, `FileTrailer.format`)

Output bytes are `List Char`, one entry per byte.  `'\n'.join` of the
Python source becomes `joinNL`.  On the construction path every non-zeroth
body object is attached and in use and carries formatted contents, object
numbers ascend in creation order (so `sorted(self.objects)` iterates them
in list order), and the zeroth object is the only free one and is skipped
by `FileBody.format` (`object_number != 0`). -/

/-- Byte strings. -/
abbrev Bytes := List Char

/-- The newline byte the serializer emits. -/
def nl : Char := '\n'

/-- Python's `'\n'.join`. -/
def joinNL : List Bytes → Bytes
  | [] => []
  | [x] => x
  | x :: y :: t => x ++ nl :: joinNL (y :: t)

/-- One body object of a section: its number, generation and the formatted
bytes of its contents (`self.contents.format()`). -/
structure MObj where
  num : Nat
  gen : Nat
  contents : Bytes

/-- `PdfIndirectObject.format`: `"N G obj\n{contents}\nendobj"`. -/
def fmtIndirect (o : MObj) : Bytes :=
  natRepr o.num ++ ' ' :: natRepr o.gen ++ " obj".toList
    ++ nl :: o.contents ++ nl :: "endobj".toList

/-- The line `N G obj`, the part of `fmtIndirect` before its first newline. -/
def objHeaderLine (n g : Nat) : Bytes :=
  natRepr n ++ ' ' :: natRepr g ++ " obj".toList

/-- `FileBody.format`'s output: the formatted non-zeroth objects joined by
single newlines. -/
def bodyBytes (objs : List MObj) : Bytes := joinNL (objs.map fmtIndirect)

/-- The `(object number, generation) -> byte offset` map recorded while
`FileBody.format` runs: the first object sits at the incoming cursor
`start`, and each object advances the cursor by its length plus one. -/
def bodyOffsets (start : Nat) : List MObj → List ((Nat × Nat) × Nat)
  | [] => []
  | o :: rest => ((o.num, o.gen), start) :: bodyOffsets (start + (fmtIndirect o).length + 1) rest

/-- A file section as the serializer consumes it: its in-use objects, the
object number of the zeroth object's `next_free_object` (0 on the pure
construction path) and the trailer's size counter. -/
structure MSec where
  objs : List MObj
  zerothNextNum : Nat
  size : Nat

/-- `CrtEntry.format` for the zeroth (free) entry:
`"{next:010} 65535 f \n"` - generation 65535 is kept as is. -/
def crtEntryFree (nextNum : Nat) : Bytes :=
  padZeros 10 (natRepr nextNum) ++ " 65535 f ".toList ++ [nl]

/-- `CrtEntry.format` for an in-use entry: `"{offset:010} {gen:05} n \n"`. -/
def crtEntryInUse (off gen : Nat) : Bytes :=
  padZeros 10 (natRepr off) ++ ' ' :: padZeros 5 (natRepr gen) ++ " n ".toList ++ [nl]

/-- `CrtSection.format` with its single construction-path subsection:
`"xref\n"` then the subsection header `"0 {count}\n"` then the fixed-width
entries, the zeroth first, each ending in a newline. -/
def crtBytes (count : Nat) (freeE : Bytes) (inUse : List Bytes) : Bytes :=
  "xref".toList ++ nl :: '0' :: ' ' :: natRepr count ++ nl :: (freeE ++ inUse.flatten)

/-- `FileTrailer.format` on the construction path: the dictionary holds
`/Root` (the catalog's reference) and `/Size`, then `startxref`, the
section's crt byte offset, and `%%EOF`. -/
def trailerBytes (root : Nat × Nat) (size crtOff : Nat) : Bytes :=
  "trailer".toList ++ nl :: "<<".toList ++ nl :: "  /Root ".toList
    ++ natRepr root.1 ++ ' ' :: natRepr root.2 ++ " R".toList
    ++ nl :: "/Size ".toList ++ natRepr size
    ++ nl :: ">>".toList ++ nl :: "startxref".toList
    ++ nl :: natRepr crtOff ++ nl :: "%%EOF".toList

/-- What `FileSection.format` leaves behind: the section's bytes, the body's
offset map, and the `crt_byte_offset` stored into the trailer (the value
`startxref` prints). -/
structure SecOut where
  bytes : Bytes
  offsets : List ((Nat × Nat) × Nat)
  crtOff : Nat

/-- `FileSection.format` at cursor `cur`: the body is formatted first (its
offsets start at `cur`), the cursor advances by each part's length plus
one, the crt offset is recorded after the body, and the three parts are
joined by single newlines.  Returns the section output and the final
cursor. -/
def fmtSection (root : Nat × Nat) (cur : Nat) (sec : MSec) : SecOut × Nat :=
  let b := bodyBytes sec.objs
  let offs := bodyOffsets cur sec.objs
  let crtOff := cur + b.length + 1
  let c := crtBytes (1 + sec.objs.length) (crtEntryFree sec.zerothNextNum)
      (offs.map fun e => crtEntryInUse e.2 e.1.2)
  let t := trailerBytes root sec.size crtOff
  (⟨b ++ nl :: c ++ nl :: t, offs, crtOff⟩, crtOff + c.length + 1 + t.length + 1)

/-- The loop of `PdfFile.format` over sections: each section is formatted at
the running cursor, and after each one the cursor is advanced by one more
byte (`self.cur_format_byte_offset += 1`). -/
def fmtSections (root : Nat × Nat) (cur : Nat) : List MSec → List SecOut × Nat
  | [] => ([], cur)
  | s :: rest =>
    let so := fmtSection root cur s
    let os := fmtSections root (so.2 + 1) rest
    (so.1 :: os.1, os.2)

/-- `PdfFile.format`: the cursor starts one past the header's encoded length,
and the output joins the header and the section strings with single
newlines.  Returns the bytes, the per-section outputs, and the final value
of `cur_format_byte_offset`. -/
def fmtFile (hdr : Bytes) (root : Nat × Nat) (secs : List MSec) :
    Bytes × List SecOut × Nat :=
  let r := fmtSections root (hdr.length + 1) secs
  (hdr ++ nl :: joinNL (r.1.map SecOut.bytes), r.1, r.2)

/-- The serialized bytes of a document. -/
def fileBytes (hdr : Bytes) (root : Nat × Nat) (secs : List MSec) : Bytes :=
  (fmtFile hdr root secs).1

/-- The per-section outputs (offset maps and crt offsets) of a document. -/
def fileSecOuts (hdr : Bytes) (root : Nat × Nat) (secs : List MSec) : List SecOut :=
  (fmtFile hdr root secs).2.1

/-- The final byte-offset accounting value of `PdfFile.format`. -/
def fileFinalCur (hdr : Bytes) (root : Nat × Nat) (secs : List MSec) : Nat :=
  (fmtFile hdr root secs).2.2

/-- The bytes of `s` starting at `off` begin with `pat`. -/
def bytesAt (s : Bytes) (off : Nat) (pat : Bytes) : Prop :=
  (s.drop off).take pat.length = pat

instance (s : Bytes) (off : Nat) (pat : Bytes) : Decidable (bytesAt s off pat) := by
  unfold bytesAt; infer_instance

/-- The line beginning at `off`: the bytes up to the next newline. -/
def lineAt (s : Bytes) (off : Nat) : Bytes := (s.drop off).takeWhile (· != nl)

/-! ### Concrete documents used as explicit inputs -/

/-- The encoded bytes of the version-1.4 header `FileHeader.format` emits:
`%PDF-1.4`, a newline, and the binary-marker comment whose four non-ASCII
characters occupy two UTF-8 bytes each - 18 bytes in all, matching
`len(formatted_header.encode())`. -/
def hdr14 : Bytes :=
  "%PDF-1.4".toList ++ nl :: '%' ::
    [Char.ofNat 195, Char.ofNat 162, Char.ofNat 195, Char.ofNat 163,
     Char.ofNat 195, Char.ofNat 143, Char.ofNat 195, Char.ofNat 147]

/-- Formatted contents of the page-tree root object that `PdfFile.setup`
creates (`PdfDict.format` of `Type/Kids/Count`). -/
def pagesObjBytes : Bytes := "<<\n  /Type /Pages\n/Kids [  ]\n/Count 0\n>>".toList

/-- Formatted contents of the document catalog object of `PdfFile.setup`. -/
def catalogObjBytes : Bytes := "<<\n  /Type /Catalog\n/Pages 1 0 R\n>>".toList

/-- The single section of the freshly set-up empty document: page-tree root
`(1, 0)`, catalog `(2, 0)`, trailer size 3. -/
def emptySec : MSec := ⟨[⟨1, 0, pagesObjBytes⟩, ⟨2, 0, catalogObjBytes⟩], 0, 3⟩

/-- Serialized bytes of the empty document. -/
def emptyOut : Bytes := fileBytes hdr14 (2, 0) [emptySec]

/-- An update section holding one object `(1, 0)` with contents `42`, as
`add_update` followed by the update's `setup` and one `add_pdf_object`
produces it (trailer size 2). -/
def updSec : MSec := ⟨[⟨1, 0, "42".toList⟩], 0, 2⟩

/-- Serialized bytes of the empty document followed by that update section. -/
def twoSecOut : Bytes := fileBytes hdr14 (2, 0) [emptySec, updSec]

/-- Per-section outputs of the two-section document. -/
def twoSecInfos : List SecOut := fileSecOuts hdr14 (2, 0) [emptySec, updSec]

/-- The body state after `setup`, one `add_pdf_object`, and one release of
the added object. -/
def relBodyState : BodyState := release_pdf_object (add_pdf_object body_setup) 1

/-- The body state reached when the already-free object 1 is released a
second time - a call sequence of `setup`, `add_pdf_object`,
`release_pdf_object` the source accepts without complaint. -/
def badBodyState : BodyState := release_pdf_object relBodyState 1

/-- A document with one update section: `setup`, then `add_update` plus the
update's `setup`, then one `add_pdf_object` landing in the update. -/
def badFile6 : File6 := file6_add (file6_add_update_setup file6_setup)

/-! ### Value model and round-trip pipeline (pdf.py)

The remaining definitions embed pdf.py's value formatter
(`PdfObject.format` and subclasses), its tokenizer (`read_pdf_tokens`,
`read_lines`, `reverse_read_lines`) and its recursive-descent parser
(`parse_pdf_object`, `PdfDict.parse`, `PdfIndirectObject.parse`,
`CrtSection.parse`, `FileTrailer.parse`, `PdfFile.parse`) over ASCII byte
strings.  Streams do not occur in the modelled document class (the
freshly set-up document), so the branches of the source that descend into
`PdfStream.parse` and `ContentStream.from_object` are modelled as parse
failures; every other branch follows the source.  All recursion is
structural on an explicit fuel argument so that the whole pipeline
evaluates inside the kernel. -/

/-- The parsed value universe of pdf.py: one constructor per `PdfObject`
subclass the parser can produce, plus the raw delimiter tokens `]` and the
closing curly bracket that `parse_pdf_object` returns verbatim.  `real`
carries the accepted token text (Python stores `float(token)`; the decimal
token models it). -/
inductive PVal where
  | bool (b : Bool)
  | null
  | int (n : Int)
  | real (tok : List Char)
  | lit (s : List Char)
  | hex (s : List Char)
  | name (s : List Char)
  | comment (s : List Char)
  | arr (xs : List PVal)
  | dict (kvs : List (PVal × PVal))
  | ref (n g : Int)
  | delimTok (c : Char)

/-- Error kinds raised along the parse path: `PdfParseError`, `ValueError`
and `TypeError` style coercion failures (folded into `value`), dictionary
`KeyError`, `AttributeError`, and `PdfBuildError`. -/
inductive PErr where
  | parse
  | value
  | key
  | attr
  | build
  deriving DecidableEq

/-- Result of a fallible parse step. -/
abbrev P (α : Type) := Except PErr α

/-- A seekable byte buffer: the underlying bytes and the cursor. -/
structure Buf where
  data : Bytes
  pos : Nat

/-- PDF whitespace characters (`b'\x00\t\n\x0c\r '`). -/
def isWsC (c : Char) : Bool := c ∈ ['\x00', '\t', '\n', '\x0c', '\r', ' ']

/-- PDF delimiter characters (`b'()<>[]\x7b\x7d/%'`; the two bracket codes
123 and 125 are written numerically). -/
def isDelimC (c : Char) : Bool :=
  c ∈ ['(', ')', '<', '>', '[', ']', Char.ofNat 123, Char.ofNat 125, '/', '%']

/-- Token scan from the suffix of the buffer at absolute index `i`: skip
whitespace, then yield a single delimiter or a maximal regular run, with
the index just past the token (the cursor position `read_pdf_tokens`
leaves).  At end of input the generator's final `yield cur_token` yields
the empty token. -/
def ntAux : Bytes → Nat → Bytes × Nat
  | [], i => ([], i)
  | c :: cs, i =>
    if isWsC c then ntAux cs (i + 1)
    else if isDelimC c then ([c], i + 1)
    else
      let w := (c :: cs).takeWhile (fun x => !(isWsC x) && !(isDelimC x))
      (w, i + w.length)

/-- One token from the buffer. -/
def nextToken (b : Buf) : Bytes × Buf :=
  let r := ntAux (b.data.drop b.pos) b.pos
  (r.1, ⟨b.data, r.2⟩)

/-- Python `str.strip` whitespace. -/
def isPyWsC (c : Char) : Bool := c ∈ [' ', '\t', '\n', '\r', '\x0b', '\x0c']

/-- Python's `bytes.strip()`. -/
def pyStrip (s : Bytes) : Bytes :=
  ((s.dropWhile isPyWsC).reverse.dropWhile isPyWsC).reverse

/-- Raw line scan: bytes up to the newline, and the index just past it. -/
def nlAux : Bytes → Nat → Bytes × Nat
  | [], i => ([], i)
  | c :: cs, i =>
    if c = nl then ([], i + 1)
    else
      let r := nlAux cs (i + 1)
      (c :: r.1, r.2)

/-- One stripped line from the buffer, as `read_lines` yields it (the
serializer emits LF only, so line splitting on LF matches `splitlines`). -/
def nextLine (b : Buf) : Bytes × Buf :=
  let r := nlAux (b.data.drop b.pos) b.pos
  (pyStrip r.1, ⟨b.data, r.2⟩)

/-- Python's `bytes.split()` with no argument: split on whitespace runs,
dropping empties. -/
def splitPyWsAux : Bytes → Bytes → List Bytes
  | [], cur => if cur = [] then [] else [cur.reverse]
  | c :: cs, cur =>
    if isPyWsC c then
      if cur = [] then splitPyWsAux cs [] else cur.reverse :: splitPyWsAux cs []
    else splitPyWsAux cs (c :: cur)

/-- Python's `bytes.split()`. -/
def splitPyWs (s : Bytes) : List Bytes := splitPyWsAux s []

/-- Decimal digit test. -/
def isDigitC (c : Char) : Bool := 48 ≤ c.toNat && c.toNat ≤ 57

/-- Value of a digit run. -/
def natOfDigits (l : Bytes) : Nat := l.foldl (fun a c => a * 10 + (c.toNat - 48)) 0

/-- Python's `int(token)` on the tokens that occur here: optional
surrounding whitespace, optional sign, then decimal digits. -/
def pyInt (s : Bytes) : Option Int :=
  match pyStrip s with
  | '-' :: ds => if ds ≠ [] && ds.all isDigitC then some (-(natOfDigits ds : Int)) else none
  | '+' :: ds => if ds ≠ [] && ds.all isDigitC then some ((natOfDigits ds : Int)) else none
  | ds => if ds ≠ [] && ds.all isDigitC then some ((natOfDigits ds : Int)) else none

/-- Mantissa acceptance for Python's `float`: `digits`, `digits.digits?`,
or `.digits`. -/
def floatMantOk (s : Bytes) : Bool :=
  let ip := s.takeWhile isDigitC
  match s.drop ip.length with
  | [] => ip ≠ []
  | '.' :: frac => (ip ≠ [] || frac ≠ []) && frac.all isDigitC
  | _ => false

/-- Exponent acceptance for Python's `float`. -/
def floatExpOk (s : Bytes) : Bool :=
  match s with
  | '-' :: r => r ≠ [] && r.all isDigitC
  | '+' :: r => r ≠ [] && r.all isDigitC
  | r => r ≠ [] && r.all isDigitC

/-- Whether Python's `float(token)` succeeds on a decimal token. -/
def pyFloatOk (s : Bytes) : Bool :=
  let t := pyStrip s
  let t := match t with
    | '-' :: r => r
    | '+' :: r => r
    | r => r
  let m := t.takeWhile (fun c => !(c == 'e' || c == 'E'))
  match t.drop m.length with
  | [] => floatMantOk m
  | _ :: ex => floatMantOk m && floatExpOk ex

/-- Hexadecimal validation, as `int(hex_string, 16)` accepts the tokens
that occur here: a non-empty run of hex digits. -/
def hexDigitsOk (s : Bytes) : Bool :=
  s ≠ [] && s.all (fun c =>
    isDigitC c || (65 ≤ c.toNat && c.toNat ≤ 70) || (97 ≤ c.toNat && c.toNat ≤ 102))

/-- The string-valued payload of the `str`-derived wrappers (`PdfName`,
`PdfLiteralString`, `PdfHexString`, `PdfComment`), which Python compares by
string value; every other `PdfObject` compares by identity. -/
def strVal? : PVal → Option Bytes
  | .lit s => some s
  | .hex s => some s
  | .name s => some s
  | .comment s => some s
  | _ => none

/-- Python `==`/hash agreement for the values used as dictionary keys:
`str`-derived wrappers compare by value; distinct freshly parsed objects of
the other kinds are never identical. -/
def keyEq (a b : PVal) : Bool :=
  match strVal? a, strVal? b with
  | some x, some y => x == y
  | _, _ => false

/-- `dict.__setitem__`: replace in place when an equal key exists,
otherwise append, preserving insertion order. -/
def setItem (kvs : List (PVal × PVal)) (k v : PVal) : List (PVal × PVal) :=
  if kvs.any (fun kv => keyEq kv.1 k) then
    kvs.map (fun kv => if keyEq kv.1 k then (kv.1, v) else kv)
  else kvs ++ [(k, v)]

/-- `d.get(key)` / `d[key]` for a `str` key against the stored keys. -/
def dictGetStr (kvs : List (PVal × PVal)) (s : Bytes) : Option PVal :=
  (kvs.find? (fun kv => keyEq kv.1 (.name s))).map (·.2)

/-- The literal-string scan of `parse_pdf_object`: read bytes one at a
time, balancing nested parentheses, until the unmatched closing paren.
The source loops forever at end of input; the model fails instead. -/
def litScan : Bytes → Nat → Nat → P (Bytes × Nat)
  | [], _, _ => .error .parse
  | c :: cs, pos, depth =>
    if c = '(' then (litScan cs (pos + 1) (depth + 1)).map (fun r => (c :: r.1, r.2))
    else if c = ')' then
      if depth = 0 then .ok ([], pos + 1)
      else (litScan cs (pos + 1) (depth - 1)).map (fun r => (c :: r.1, r.2))
    else (litScan cs (pos + 1) depth).map (fun r => (c :: r.1, r.2))

/-- The mutually recursive jobs of the value parser: `parse_pdf_object`
itself, `PdfDict.parse` from its opening `<<`, the dictionary key/value
loop, the array loop, and the hex-string token loop. -/
inductive PJob where
  | value
  | dictOpen
  | dictLoop (kvs : List (PVal × PVal)) (curKey : Option PVal)
  | arrLoop (acc : List PVal)
  | hexLoop (acc : Bytes)

/-- The recursive-descent value parser of pdf.py, one job per source loop,
all recursion structural on fuel.  The `value` job is `parse_pdf_object`
line by line: dictionary (with the `stream` peek), hex string (whose first
chunk is always consumed because the source compares the token against the
`str` `'>'`), the raw `]` and closing-bracket tokens, the unsupported
function-expression bracket, literal strings, the three keywords, comments,
names (with the no-gap check and ASCII decode), and the numeric tail that
distinguishes integers, `N G R` references and reals. -/
def parseRun : Nat → PJob → Buf → P (PVal × Buf)
  | 0, _, _ => .error .parse
  | fuel + 1, .value, b =>
    let start := b.pos
    let r₁ := nextToken b
    let t₁ := r₁.1
    let b₁ := r₁.2
    if t₁ = "<".toList then
      let r₂ := nextToken b₁
      if r₂.1 = "<".toList then
        match parseRun fuel .dictOpen ⟨b.data, start⟩ with
        | .error e => .error e
        | .ok (d, b₃) =>
          let dictEnd := b₃.pos
          let post := (nextToken b₃).1
          if post = "stream".toList then .error .parse
          else .ok (d, ⟨b.data, dictEnd⟩)
      else parseRun fuel (.hexLoop r₂.1) r₂.2
    else if t₁ = "]".toList then .ok (.delimTok ']', b₁)
    else if t₁ = "[".toList then parseRun fuel (.arrLoop []) b₁
    else if t₁ = [Char.ofNat 125] then .ok (.delimTok (Char.ofNat 125), b₁)
    else if t₁ = [Char.ofNat 123] then .error .parse
    else if t₁ = "(".toList then
      match litScan (b.data.drop b₁.pos) b₁.pos 0 with
      | .error e => .error e
      | .ok (s, p) => .ok (.lit s, ⟨b.data, p⟩)
    else if t₁ = "true".toList then .ok (.bool true, b₁)
    else if t₁ = "false".toList then .ok (.bool false, b₁)
    else if t₁ = "null".toList then .ok (.null, b₁)
    else if t₁ = "%".toList then
      let r₂ := nextLine b₁
      .ok (.comment r₂.1, r₂.2)
    else if t₁ = "/".toList then
      let solidusEnd := b₁.pos
      let r₂ := nextToken b₁
      if solidusEnd = r₂.2.pos - r₂.1.length then
        if r₂.1.all (fun c => c.toNat ≤ 127) then .ok (.name r₂.1, r₂.2)
        else .error .value
      else .error .parse
    else
      match pyInt t₁ with
      | some v₁ =>
        let tokenEnd := b₁.pos
        let r₂ := nextToken b₁
        match pyInt r₂.1 with
        | none => .ok (.int v₁, ⟨b.data, tokenEnd⟩)
        | some v₂ =>
          let r₃ := nextToken r₂.2
          if r₃.1 = "R".toList then .ok (.ref v₁ v₂, r₃.2)
          else .ok (.int v₁, ⟨b.data, tokenEnd⟩)
      | none =>
        if pyFloatOk t₁ then .ok (.real t₁, b₁) else .error .parse
  | fuel + 1, .dictOpen, b =>
    let r₁ := nextToken b
    let r₂ := nextToken r₁.2
    if r₁.1 = "<".toList && r₂.1 = "<".toList then parseRun fuel (.dictLoop [] none) r₂.2
    else .error .parse
  | fuel + 1, .dictLoop kvs curKey, b =>
    let cur := b.pos
    let r := nextToken b
    if r.1 = ">".toList then
      let r₂ := nextToken r.2
      if r₂.1 = ">".toList then .ok (.dict kvs, r₂.2) else .error .parse
    else
      match parseRun fuel .value ⟨b.data, cur⟩ with
      | .error e => .error e
      | .ok (v, b₂) =>
        match v with
        | .comment _ => parseRun fuel (.dictLoop kvs curKey) b₂
        | _ =>
          match curKey with
          | none => parseRun fuel (.dictLoop kvs (some v)) b₂
          | some k => parseRun fuel (.dictLoop (setItem kvs k v) none) b₂
  | fuel + 1, .arrLoop acc, b =>
    match parseRun fuel .value b with
    | .error e => .error e
    | .ok (v, b₂) =>
      match v with
      | .comment _ => parseRun fuel (.arrLoop acc) b₂
      | .delimTok c =>
        if c = ']' then .ok (.arr acc, b₂)
        else parseRun fuel (.arrLoop (acc ++ [.delimTok c])) b₂
      | v => parseRun fuel (.arrLoop (acc ++ [v])) b₂
  | fuel + 1, .hexLoop acc, b =>
    let r := nextToken b
    if r.1 = ">".toList then
      let hexs := if acc.length % 2 ≠ 0 then acc ++ ['0'] else acc
      if hexDigitsOk hexs then .ok (.hex hexs, r.2) else .error .parse
    else parseRun fuel (.hexLoop (acc ++ r.1)) r.2

/-! ### File-structure parsing (`FileTrailer.parse`, `CrtSection.parse`,
`FileBody.parse`, `PdfFile.parse`) -/

/-- A parsed trailer: its dictionary, the `Size` value it extracts, and the
`startxref` offset. -/
structure TrailerP where
  dict : List (PVal × PVal)
  sizeV : PVal
  startxref : Int

/-- A parsed cross-reference entry (`CrtEntry.parse` plus the object number
the subsection assigns). -/
structure CrtEntryP where
  objNum : Int
  genNum : Int
  firstItem : Int
  free : Bool

/-- A parsed file section: its xref subsections, trailer, and the body's
object keys in entry order. -/
structure SecP where
  subsections : List (List CrtEntryP)
  trailer : TrailerP
  bodyKeys : List (Int × Int)

/-- The document's object store: `(object#, generation#) -> contents`. -/
abbrev Store := List ((Int × Int) × PVal)

/-- Store lookup. -/
def storeGet (st : Store) (k : Int × Int) : Option PVal :=
  (st.find? (fun e => e.1 == k)).map (·.2)

/-- `if entry_key not in self.pdf_file.object_store: ... = entry.pdf_object`. -/
def storeAddIfAbsent (st : Store) (k : Int × Int) (v : PVal) : Store :=
  if (storeGet st k).isSome then st else st ++ [(k, v)]

/-- `FileTrailer.parse`: the `trailer` keyword, the dictionary, the `Size`
lookup (a missing key raises), `startxref`, the offset line, `%%EOF`. -/
def parseTrailer (fuel : Nat) (b : Buf) : P (TrailerP × Buf) :=
  let r := nextToken b
  if r.1 = "trailer".toList then
    match parseRun fuel .dictOpen r.2 with
    | .error e => .error e
    | .ok (.dict kvs, b₂) =>
      match dictGetStr kvs "Size".toList with
      | none => .error .key
      | some sz =>
        let r₂ := nextToken b₂
        if r₂.1 = "startxref".toList then
          let r₃ := nextLine r₂.2
          let r₄ := nextLine r₃.2
          match pyInt r₄.1 with
          | none => .error .parse
          | some off =>
            let r₅ := nextLine r₄.2
            if r₅.1 = "%%EOF".toList then .ok (⟨kvs, sz, off⟩, r₅.2)
            else .error .parse
        else .error .parse
    | .ok _ => .error .parse
  else .error .parse

/-- `CrtEntry.parse`: a line of `first_item generation usage`, unpacked into
exactly three fields and converted with `int`; the object number is
assigned afterwards by the subsection. -/
def parseCrtEntry (b : Buf) : P (CrtEntryP × Buf) :=
  let r := nextLine b
  match splitPyWs r.1 with
  | [fi, gn, us] =>
    match pyInt fi, pyInt gn with
    | some fiv, some gnv => .ok (⟨0, gnv, fiv, us = "f".toList⟩, r.2)
    | _, _ => .error .value
  | _ => .error .value

/-- The entry loop of `CrtSubsection.parse`: `count` entries, numbered
consecutively from the subsection's first object number. -/
def parseSubsecEntries : Nat → Int → Buf → P (List CrtEntryP × Buf)
  | 0, _, b => .ok ([], b)
  | k + 1, num, b =>
    match parseCrtEntry b with
    | .error e => .error e
    | .ok (e, b₁) =>
      match parseSubsecEntries k (num + 1) b₁ with
      | .error e => .error e
      | .ok (rest, b₂) => .ok ({ e with objNum := num } :: rest, b₂)

/-- `CrtSubsection.parse`: the `first count` header line, then the entries. -/
def parseSubsection (b : Buf) : P (List CrtEntryP × Buf) :=
  let r := nextLine b
  match splitPyWs r.1 with
  | [fo, cnt] =>
    match pyInt fo, pyInt cnt with
    | some fov, some cntv => parseSubsecEntries cntv.toNat fov r.2
    | _, _ => .error .value
  | _ => .error .value

/-- The subsection loop of `CrtSection.parse`: peek one token, stop before
`trailer` (restoring the cursor), otherwise parse a subsection. -/
def parseCrtLoop : Nat → Buf → List (List CrtEntryP) → P (List (List CrtEntryP) × Buf)
  | 0, _, _ => .error .parse
  | fuel + 1, b, acc =>
    let cur := b.pos
    let t := (nextToken b).1
    if t = "trailer".toList then .ok (acc, ⟨b.data, cur⟩)
    else
      match parseSubsection ⟨b.data, cur⟩ with
      | .error e => .error e
      | .ok (sub, b₁) => parseCrtLoop fuel b₁ (acc ++ [sub])

/-- `CrtSection.parse`: the `xref` line, then the subsections. -/
def parseCrt (fuel : Nat) (b : Buf) : P (List (List CrtEntryP) × Buf) :=
  let r := nextLine b
  if r.1 = "xref".toList then parseCrtLoop fuel r.2 []
  else .error .parse

/-- `PdfIndirectObject.parse`: the `N G obj` line (three fields, third
`obj`; the parsed numbers are not recorded), the contents, `endobj`. -/
def parseIndirect (fuel : Nat) (b : Buf) : P (PVal × Buf) :=
  let r := nextLine b
  match splitPyWs r.1 with
  | [_, _, objKw] =>
    if objKw = "obj".toList then
      match parseRun fuel .value r.2 with
      | .error e => .error e
      | .ok (v, b₂) =>
        let r₂ := nextToken b₂
        if r₂.1 = "endobj".toList then .ok (v, r₂.2) else .error .parse
    else .error .parse
  | _ => .error .parse

/-- The entry loop of `FileBody.parse` within one section: free entries go
through `make_free_object` (the first one becomes the zeroth object and
must be `(0, 65535)`; `zseen` tracks whether the section's zeroth exists),
in-use entries seek to their recorded offset, parse one indirect object,
and insert it into the shared store if its key is absent. -/
def parseBodyEntries (fuel : Nat) (data : Bytes) :
    List CrtEntryP → Bool → Store → List (Int × Int) →
    P (Store × List (Int × Int) × Bool)
  | [], zseen, st, keys => .ok (st, keys, zseen)
  | e :: rest, zseen, st, keys =>
    if e.free then
      if zseen = false && decide ((e.objNum, e.genNum) ≠ ((0 : Int), (65535 : Int))) then
        .error .build
      else parseBodyEntries fuel data rest true st (keys ++ [(e.objNum, e.genNum)])
    else
      if e.firstItem < 0 then .error .value
      else
        match parseIndirect fuel ⟨data, e.firstItem.toNat⟩ with
        | .error er => .error er
        | .ok (v, _) =>
          parseBodyEntries fuel data rest zseen
            (storeAddIfAbsent st (e.objNum, e.genNum) v)
            (keys ++ [(e.objNum, e.genNum)])

/-- `FileBody.parse` over all subsections of a section. -/
def parseBodySubs (fuel : Nat) (data : Bytes) :
    List (List CrtEntryP) → Bool → Store → List (Int × Int) →
    P (Store × List (Int × Int))
  | [], _, st, keys => .ok (st, keys)
  | sub :: rest, zseen, st, keys =>
    match parseBodyEntries fuel data sub zseen st keys with
    | .error e => .error e
    | .ok (st', keys', zseen') => parseBodySubs fuel data rest zseen' st' keys'

/-- The lines of the whole input paired with their start offsets (the final
line without a terminator included, as `splitlines` produces it). -/
def lwsAux : Bytes → Nat → Nat → Bytes → List (Nat × Bytes)
  | [], lineStart, _, cur => [(lineStart, cur.reverse)]
  | c :: cs, lineStart, i, cur =>
    if c = nl then (lineStart, cur.reverse) :: lwsAux cs (i + 1) (i + 1) []
    else lwsAux cs lineStart (i + 1) (c :: cur)

/-- The reverse scan of `FileSection.parse`: `reverse_read_lines` from the
end of the buffer until a stripped line equals `trailer`, after which one
more `next` leaves the cursor at the start of that `trailer` line.  The
model returns that start offset directly. -/
def findTrailerStart (data : Bytes) : Option Nat :=
  ((lwsAux data 0 0 []).reverse.find? (fun p => pyStrip p.2 = "trailer".toList)).map (·.1)

/-- `FileSection.parse` for the newest section: reverse-scan to the last
`trailer` line, parse the trailer, seek to its `startxref` offset, parse
the crt section, then the body. -/
def parseFirstSection (fuel : Nat) (data : Bytes) (st : Store) : P (SecP × Store) :=
  match findTrailerStart data with
  | none => .error .parse
  | some ts =>
    match parseTrailer fuel ⟨data, ts⟩ with
    | .error e => .error e
    | .ok (tr, _) =>
      if tr.startxref < 0 then .error .value
      else
        match parseCrt fuel ⟨data, tr.startxref.toNat⟩ with
        | .error e => .error e
        | .ok (subs, _) =>
          match parseBodySubs fuel data subs false st [] with
          | .error e => .error e
          | .ok (st', keys) => .ok (⟨subs, tr, keys⟩, st')

/-- `FileSection.parse` for an older section reached through `Prev`: seek
to the offset, parse the crt section, then the trailer, then the body. -/
def parsePrevSection (fuel : Nat) (data : Bytes) (prevOff : Int) (st : Store) :
    P (SecP × Store) :=
  if prevOff < 0 then .error .value
  else
    match parseCrt fuel ⟨data, prevOff.toNat⟩ with
    | .error e => .error e
    | .ok (subs, b₁) =>
      match parseTrailer fuel b₁ with
      | .error e => .error e
      | .ok (tr, _) =>
        match parseBodySubs fuel data subs false st [] with
        | .error e => .error e
        | .ok (st', keys) => .ok (⟨subs, tr, keys⟩, st')

/-- The section loop of `PdfFile.parse`: parse the newest section first,
then follow each oldest-so-far section's `Prev` (which must be an integer
offset), prepending older sections, until the oldest has no `Prev`.  The
resulting list is ordered oldest to newest. -/
def sectionsLoop : Nat → Bytes → List SecP → Store → P (List SecP × Store)
  | 0, _, _, _ => .error .parse
  | fuel + 1, data, acc, st =>
    match acc.head? with
    | none =>
      match parseFirstSection fuel data st with
      | .error e => .error e
      | .ok (s, st') => sectionsLoop fuel data [s] st'
    | some s =>
      match dictGetStr s.trailer.dict "Prev".toList with
      | none => .ok (acc, st)
      | some (.int off) =>
        match parsePrevSection fuel data off st with
        | .error e => .error e
        | .ok (s', st') => sectionsLoop fuel data (s' :: acc) st'
      | some _ => .error .value

/-! ### Document hierarchy from parsed objects (`DocumentCatalog.from_object`,
`PageTreeNode.from_object`, `PageObject.from_object`) -/

/-- A reconstructed page-tree node or page, carrying exactly the attributes
the `from_object` methods set: for a tree node the own `Resources` (the
`media_box` attribute is never set by `from_object` and stays `none`), the
`Kids` value, the count of children processed, and the children; for a
page the inherited-resolved `Resources` and `MediaBox`, the `Contents`
value, and the recomputed font counter. -/
inductive TreeNode where
  | node (resources : Option PVal) (mediaBox : Option PVal) (kids : PVal)
      (count : Nat) (children : List TreeNode)
  | page (resources : PVal) (mediaBox : PVal) (contents : PVal) (fontNumber : Nat)

/-- The reconstructed catalog: version and page layout keep their
constructor defaults (`1.4`, `single_page`), plus the page tree. -/
structure CatalogM where
  version : Bytes
  pageLayout : Bytes
  tree : TreeNode

/-- Coerce to a dictionary's pairs (`TypeError`-style failure otherwise). -/
def asDictKvs : PVal → P (List (PVal × PVal))
  | .dict kvs => .ok kvs
  | _ => .error .value

/-- Coerce to an array's items. -/
def asArrItems : PVal → P (List PVal)
  | .arr xs => .ok xs
  | _ => .error .value

/-- `.object_key` of a reference (`AttributeError` on anything else). -/
def refKey : PVal → P (Int × Int)
  | .ref n g => .ok (n, g)
  | _ => .error .attr

/-- The font-counter scan of `PageObject.from_object`: over the keys of the
resource dictionary's `Font` entry, `int(alias[1:])`, folding the maximum. -/
def maxFontNumLoop : List (PVal × PVal) → Nat → P Nat
  | [], acc => .ok acc
  | (k, _) :: rest, acc =>
    match strVal? k with
    | none => .error .attr
    | some s =>
      match pyInt (s.drop 1) with
      | none => .error .value
      | some v => maxFontNumLoop rest (max acc v.toNat)

/-- `self.resources.get('Font', {})` and the fold above. -/
def maxFontNum (res : PVal) : P Nat :=
  match res with
  | .dict kvs =>
    match dictGetStr kvs "Font".toList with
    | none => .ok 0
    | some (.dict fkvs) => maxFontNumLoop fkvs 0
    | some _ => .error .value
  | _ => .error .attr

/-- `PageObject.from_object`: resolve `Resources` and `MediaBox` through the
inherited chain (both required; tree nodes contribute no `MediaBox`
because `from_object` never sets it), take `Contents` with an empty-array
default, and recompute the font counter.  A page with content streams
leads into `ContentStream.from_object`, which reads stream payloads and is
outside the modelled fragment. -/
def pageFromObject (v : PVal) (inhRes : Option PVal) (_st : Store) : P TreeNode :=
  match asDictKvs v with
  | .error e => .error e
  | .ok kvs =>
    match (dictGetStr kvs "Resources".toList).orElse (fun _ => inhRes) with
    | none => .error .build
    | some res =>
      match dictGetStr kvs "MediaBox".toList with
      | none => .error .build
      | some mb =>
        let contents := (dictGetStr kvs "Contents".toList).getD (.arr [])
        match asArrItems contents with
        | .error e => .error e
        | .ok contentRefs =>
          if contentRefs.isEmpty = false then .error .attr
          else
            match maxFontNum res with
            | .error e => .error e
            | .ok fn => .ok (.page res mb contents fn)

/-- The jobs of the recursive tree reconstruction: one node, or a list of
kid references. -/
inductive TJob where
  | one (v : PVal) (inhRes : Option PVal)
  | many (ks : List PVal) (inhRes : Option PVal)

/-- `PageTreeNode.from_object` and its kid loop, structural on fuel: a node
takes its own `Resources`, requires `Kids`, recurses through the kid
references (each resolved through the store and dispatched on its `Type`),
and counts the children; the effective resource chain for descendants is
the node's own `Resources` when set, else the inherited one. -/
def treeRun : Nat → TJob → Store → P (List TreeNode)
  | 0, _, _ => .error .parse
  | fuel + 1, .one v inhRes, st =>
    match asDictKvs v with
    | .error e => .error e
    | .ok kvs =>
      let resources := dictGetStr kvs "Resources".toList
      match dictGetStr kvs "Kids".toList with
      | none => .error .key
      | some kidsV =>
        match asArrItems kidsV with
        | .error e => .error e
        | .ok kidRefs =>
          match treeRun fuel (.many kidRefs (resources.orElse (fun _ => inhRes))) st with
          | .error e => .error e
          | .ok children =>
            .ok [.node resources none kidsV children.length children]
  | _ + 1, .many [] _, _ => .ok []
  | fuel + 1, .many (kr :: rest) inhRes, st =>
    match refKey kr with
    | .error e => .error e
    | .ok key =>
      match storeGet st key with
      | none => .error .parse
      | some kidObj =>
        match asDictKvs kidObj with
        | .error e => .error e
        | .ok kidKvs =>
          match dictGetStr kidKvs "Type".toList with
          | none => .error .key
          | some ty =>
            if strVal? ty = some "Pages".toList then
              match treeRun fuel (.one kidObj inhRes) st with
              | .error e => .error e
              | .ok ns =>
                match treeRun fuel (.many rest inhRes) st with
                | .error e => .error e
                | .ok rest' => .ok (ns ++ rest')
            else if strVal? ty = some "Page".toList then
              match pageFromObject kidObj inhRes st with
              | .error e => .error e
              | .ok p =>
                match treeRun fuel (.many rest inhRes) st with
                | .error e => .error e
                | .ok rest' => .ok (p :: rest')
            else .error .parse

/-- `DocumentCatalog.from_object`: resolve `Pages` through the store and
reconstruct the page tree; version and page layout keep the constructor
defaults. -/
def catalogFromObject (fuel : Nat) (v : PVal) (st : Store) : P CatalogM :=
  match asDictKvs v with
  | .error e => .error e
  | .ok kvs =>
    match dictGetStr kvs "Pages".toList with
    | none => .error .key
    | some pagesRef =>
      match refKey pagesRef with
      | .error e => .error e
      | .ok key =>
        match storeGet st key with
        | none => .error .parse
        | some treeObj =>
          match treeRun fuel (.one treeObj none) st with
          | .error e => .error e
          | .ok [n] => .ok ⟨"1.4".toList, "single_page".toList, n⟩
          | .ok _ => .error .parse

/-- The outcome of `PdfFile.read` on a fresh document, one field per
attribute the source mutates: whether `self.header` has been assigned
(`parse` assigns it before validating the first line, so it is set in
every outcome), the parsed version, the section list, the object store,
the catalog, and the error if any.  On a failure inside the section loop
the partially parsed sections and store entries are dropped at this
model's section granularity; the header and version fields retain their
mutations exactly as in the source. -/
structure ReadResult where
  headerAssigned : Bool
  version : Option Bytes
  sections : List SecP
  store : Store
  catalog : Option CatalogM
  err : Option PErr

/-- The state of a freshly constructed `PdfFile` before any `read`:
no header, no sections, empty store, no catalog. -/
def freshRead : ReadResult := ⟨false, none, [], [], none, none⟩

/-- `PdfFile.read` on a fresh document with a seekable buffer, which
delegates to `PdfFile.parse`: assign the header, validate `%PDF` on the
first stripped line, convert the version with `float`, run the section
loop, resolve `Root` from the newest section through the store, and build
the catalog. -/
def readModel (input : Bytes) : ReadResult :=
  let line := (nextLine ⟨input, 0⟩).1
  if line.take 4 ≠ "%PDF".toList then ⟨true, none, [], [], none, some .parse⟩
  else
    let ver := line.drop 5
    if pyFloatOk ver = false then ⟨true, none, [], [], none, some .value⟩
    else
      match sectionsLoop (input.length + 64) input [] [] with
      | .error e => ⟨true, some ver, [], [], none, some e⟩
      | .ok (secs, st) =>
        match secs.getLast? with
        | none => ⟨true, some ver, secs, st, none, some .parse⟩
        | some newest =>
          match dictGetStr newest.trailer.dict "Root".toList with
          | none => ⟨true, some ver, secs, st, none, some .key⟩
          | some rootV =>
            match refKey rootV with
            | .error e => ⟨true, some ver, secs, st, none, some e⟩
            | .ok key =>
              match storeGet st key with
              | none => ⟨true, some ver, secs, st, none, some .parse⟩
              | some catObj =>
                match catalogFromObject (input.length + 64) catObj st with
                | .error e => ⟨true, some ver, secs, st, none, some e⟩
                | .ok cat => ⟨true, some ver, secs, st, some cat, none⟩

/-! ### The builder side: `PdfFile().setup()` and its serialization -/

/-- Python `str` of an `int` (possibly negative). -/
def intRepr (i : Int) : Bytes :=
  if i < 0 then '-' :: natRepr i.natAbs else natRepr i.toNat

/-- Python's `' '.join`. -/
def joinSpace : List Bytes → Bytes
  | [] => []
  | [x] => x
  | x :: y :: t => x ++ ' ' :: joinSpace (y :: t)

/-- The value formatter of pdf.py (`format` on each `PdfObject` subclass):
booleans, null, integers, reals (modelled by their stored token), literal
and hex strings, names (pdf.py writes the atom with no escaping),
comments, references, arrays (space-joined inside `[ … ]`), and
dictionaries (`<<`, two-space indent before the newline-joined `key value`
pairs, `>>`).  Fuel bounds the nesting depth. -/
def fmtPVal : Nat → PVal → Bytes
  | 0, _ => []
  | fuel + 1, v =>
    match v with
    | .bool b => if b then "true".toList else "false".toList
    | .null => "null".toList
    | .int n => intRepr n
    | .real t => t
    | .lit s => '(' :: s ++ [')']
    | .hex s => '<' :: s ++ ['>']
    | .name s => '/' :: s
    | .comment s => '%' :: s
    | .ref n g => intRepr n ++ ' ' :: intRepr g ++ " R".toList
    | .delimTok c => [c]
    | .arr xs => "[ ".toList ++ joinSpace (xs.map (fmtPVal fuel)) ++ " ]".toList
    | .dict kvs =>
      "<<".toList ++ nl :: ' ' :: ' ' ::
        joinNL (kvs.map (fun kv => fmtPVal fuel kv.1 ++ ' ' :: fmtPVal fuel kv.2))
        ++ nl :: ">>".toList

/-- The page-tree root's dictionary as `PageTreeNode.setup` builds it. -/
def pagesDictV : PVal :=
  .dict [(.name "Type".toList, .name "Pages".toList),
         (.name "Kids".toList, .arr []),
         (.name "Count".toList, .int 0)]

/-- The document catalog's dictionary as `DocumentCatalog.setup` builds it. -/
def catalogDictV : PVal :=
  .dict [(.name "Type".toList, .name "Catalog".toList),
         (.name "Pages".toList, .ref 1 0)]

/-- The builder page-tree node's `Resources` (`PdfDict` with an empty
`Font` subdictionary), set by `PageTreeNode.setup`. -/
def builderFontRes : PVal := .dict [(.name "Font".toList, .dict [])]

/-- The builder page-tree node's `MediaBox` default. -/
def builderMediaBox : PVal := .arr [.int 0, .int 0, .int 612, .int 792]

/-- The document hierarchy of `PdfFile().setup()`: default version and page
layout, and a page tree carrying the builder's `Resources` and `MediaBox`
with no kids. -/
def builderCatalog : CatalogM :=
  ⟨"1.4".toList, "single_page".toList,
    .node (some builderFontRes) (some builderMediaBox) (.arr []) 0 []⟩

/-- The single file section of the freshly set-up document, its two in-use
objects' contents produced by the value formatter. -/
def setupSecM : MSec := ⟨[⟨1, 0, fmtPVal 9 pagesDictV⟩, ⟨2, 0, fmtPVal 9 catalogDictV⟩], 0, 3⟩

/-- `format` of the freshly set-up document. -/
def setupDocBytes : Bytes := fileBytes hdr14 (2, 0) [setupSecM]

/-- The object store contents the parse of `setupDocBytes` builds. -/
def expectedStore : Store := [((1, 0), pagesDictV), ((2, 0), catalogDictV)]

/-- The catalog the parse reconstructs: identical to the builder's except
that the page-tree node's `Resources` and `MediaBox` come back absent. -/
def parsedCatalog : CatalogM :=
  ⟨"1.4".toList, "single_page".toList, .node none none (.arr []) 0 []⟩

/-- The trailer record the parse of `setupDocBytes` yields. -/
def expectedTrailer : TrailerP :=
  ⟨[(.name "Root".toList, .ref 2 0), (.name "Size".toList, .int 3)], .int 3, 126⟩

/-- The section record the parse of `setupDocBytes` yields. -/
def expectedSec : SecP :=
  ⟨[[⟨0, 65535, 0, true⟩, ⟨1, 0, 19, false⟩, ⟨2, 0, 75, false⟩]],
    expectedTrailer,
    [(0, 65535), (1, 0), (2, 0)]⟩

/-- Strip the inheritable attributes off a builder tree node, the way
serialization-then-parse loses them. -/
def stripNodeAttrs : TreeNode → TreeNode
  | .node _ _ kids count children => .node none none kids count children
  | .page r m c f => .page r m c f

end Pdfalcon

namespace Pdfalcon

/-! ### Theorems for the value codec -/

theorem natReprAux_mem (fuel : Nat) :
    ∀ (n : Nat) (acc : List Char) (c : Char), c ∈ natReprAux fuel n acc →
      (∃ k, k < 10 ∧ c = digitChar k) ∨ c ∈ acc := by
  induction fuel with
  | zero => intro n acc c hc; exact Or.inr hc
  | succ fuel ih =>
    intro n acc c hc
    rw [natReprAux] at hc
    split at hc
    next h =>
      rcases List.mem_cons.mp hc with hc | hc
      · exact Or.inl ⟨n, h, hc⟩
      · exact Or.inr hc
    next h =>
      rcases ih (n / 10) (digitChar (n % 10) :: acc) c hc with h' | h'
      · exact Or.inl h'
      · rcases List.mem_cons.mp h' with h' | h'
        · exact Or.inl ⟨n % 10, Nat.mod_lt _ (by omega), h'⟩
        · exact Or.inr h'

theorem natRepr_no_newline (n : Nat) : ∀ c ∈ natRepr n, c ≠ '\n' := by
  intro c hc
  rcases natReprAux_mem (n + 1) n [] c hc with ⟨k, hk, rfl⟩ | h
  · interval_cases k <;> decide
  · cases h

/-- C3: encoding the name `A B` (bytes `41 20 42`) escapes the space to
`#20`, but the parser returns the escaped atom `A#20B` verbatim - the name
branch of `parse_pdf_object` performs no `#HH` unescaping, so
encode-then-parse is not the identity on names containing whitespace,
delimiter or `#` bytes. -/
theorem name_escape_roundtrip_fails :
    pdfNameBytes [65, 32, 66] = [47, 65, 35, 50, 48, 66] ∧
    parseNameAtom (pdfNameBytes [65, 32, 66]) = some [65, 35, 50, 48, 66] ∧
    ([65, 35, 50, 48, 66] : List Byte) ≠ [65, 32, 66] := by decide

/-- C4 counterexample: for the ASCII control-free payload `A` the claim
predicts the verbatim bytes `( A )` = `28 41 29`, but
`PdfLiteralString.__bytes__` produces `28 00 41 29` - the bare UTF-16BE
encoding, without the BOM the claim's other branch would require. -/
theorem literal_string_not_verbatim :
    pdfLiteralStringBytes ['A'] = [40, 0, 65, 41] ∧
    pdfLiteralStringBytes ['A'] ≠ [40, 65, 41] ∧
    specLiteralStringBytes ['A'] = [40, 65, 41] := by decide

theorem charUtf16_length (c : Char) :
    (charUtf16 c).length = 2 ∨ (charUtf16 c).length = 4 := by
  by_cases h : c.toNat < 65536
  · left; simp [charUtf16, h]
  · right; simp [charUtf16, h]

theorem utf16be_length_ge (s : List Char) : 2 * s.length ≤ (utf16be s).length := by
  induction s with
  | nil => simp [utf16be]
  | cons c cs ih =>
    rw [utf16be, List.length_append, List.length_cons]
    rcases charUtf16_length c with h | h <;> omega

/-- C4 (amended): the encoder always writes the bare UTF-16BE bytes of the
payload between parentheses - never the verbatim ASCII form and never the
BOM-prefixed form - so on every non-empty payload it disagrees with the
spec's encoding rule. -/
theorem literal_string_always_bare_utf16 (s : List Char) (hs : s ≠ []) :
    pdfLiteralStringBytes s = 40 :: (utf16be s ++ [41]) ∧
    pdfLiteralStringBytes s ≠ specLiteralStringBytes s := by
  refine ⟨rfl, ?_⟩
  intro h
  have hlen := congrArg List.length h
  have hu := utf16be_length_ge s
  have hs' : 1 ≤ s.length := List.length_pos.mpr hs
  unfold pdfLiteralStringBytes specLiteralStringBytes at hlen
  split at hlen <;> (simp [List.length_append] at hlen; try omega)

theorem literal_string_always_bare_utf16_witness :
    (['A'] : List Char) ≠ [] ∧
    (pdfLiteralStringBytes ['A'] = 40 :: (utf16be ['A'] ++ [41]) ∧
      pdfLiteralStringBytes ['A'] ≠ specLiteralStringBytes ['A']) :=
  ⟨by decide, literal_string_always_bare_utf16 ['A'] (by decide)⟩

/-- C7: with a page whose `pdf_object` is `(3, 0)` and object number 4 free,
the first `add_font('Helvetica')` builds the font as object `(4, 0)` and
aliases it, but - because the source caches the page itself
(`self.pdf_file.fonts[font_name] = self`) - the second call's alias entry
references `(3, 0)`, the first page's indirect object, not the font.  No
second font object is constructed (the object counter stays at 5). -/
theorem add_font_second_call_aliases_page :
    (add_font ⟨4, []⟩ (3, 0) "Helvetica".toList).2 = (4, 0) ∧
    (add_font (add_font ⟨4, []⟩ (3, 0) "Helvetica".toList).1 (3, 0)
        "Helvetica".toList).2 = (3, 0) ∧
    (add_font (add_font ⟨4, []⟩ (3, 0) "Helvetica".toList).1 (3, 0)
        "Helvetica".toList).1.nextObjNum = 5 ∧
    ((3, 0) : Nat × Nat) ≠ (4, 0) := by decide

/-! ### Cross-reference counting (C10, C6) -/

theorem modifyLast_append_sum (k : Nat × Nat) :
    ∀ l : List (List (Nat × Nat)), l ≠ [] →
      ((modifyLast (· ++ [k]) l).map List.length).sum = (l.map List.length).sum + 1 ∧
      modifyLast (· ++ [k]) l ≠ []
  | [], h => absurd rfl h
  | [x], _ => by simp [modifyLast]
  | x :: y :: t, _ => by
    have ih := modifyLast_append_sum k (y :: t) (by simp)
    rw [modifyLast]
    refine ⟨?_, by simp⟩
    simp only [List.map_cons, List.sum_cons, ih.1]
    omega

theorem crt_foldl (ks : List (Nat × Nat)) :
    ∀ s : CrtState, s.subsections ≠ [] →
      totalEntries (ks.foldl crt_add s) = totalEntries s + ks.length ∧
      (ks.foldl crt_add s).size = s.size + ks.length ∧
      (ks.foldl crt_add s).subsections ≠ [] := by
  induction ks with
  | nil => intro s hs; exact ⟨rfl, rfl, hs⟩
  | cons k ks ih =>
    intro s hs
    have hstep := modifyLast_append_sum k s.subsections hs
    have ih' := ih (crt_add s k) hstep.2
    have h1 : totalEntries (crt_add s k) = totalEntries s + 1 := by
      unfold totalEntries crt_add
      simpa using hstep.1
    have h2 : (crt_add s k).size = s.size + 1 := rfl
    refine ⟨?_, ?_, ih'.2.2⟩
    · rw [List.foldl_cons, ih'.1, h1, List.length_cons]
      omega
    · rw [List.foldl_cons, ih'.2.1, h2, List.length_cons]
      omega

/-- C10: after `CrtSection.setup` and any sequence of
`CrtSection.add_pdf_object` calls, the trailer's size counter equals the
total number of entries across the section's subsections; each add call adds
exactly one entry and increments the size by exactly one, and the freshly
initialised state has zero entries and size zero. -/
theorem crt_size_equals_total_entries (ks : List (Nat × Nat)) :
    (crt_after ks).size = totalEntries (crt_after ks) ∧
    (∀ k, (crt_after (ks ++ [k])).size = (crt_after ks).size + 1 ∧
      totalEntries (crt_after (ks ++ [k])) = totalEntries (crt_after ks) + 1) ∧
    crt_initial.size = 0 ∧ totalEntries crt_initial = 0 := by
  have hsetup : totalEntries crt_setup = 1 ∧ crt_setup.size = 1 ∧
      crt_setup.subsections ≠ [] := by decide
  have h := crt_foldl ks crt_setup hsetup.2.2
  refine ⟨?_, ?_, rfl, rfl⟩
  · show (crt_after ks).size = totalEntries (crt_after ks)
    unfold crt_after
    rw [h.1, h.2.1, hsetup.1, hsetup.2.1]
  · intro k
    have h' := crt_foldl (ks ++ [k]) crt_setup hsetup.2.2
    have e1 := h'.2.1
    have e2 := h.2.1
    have e3 := h'.1
    have e4 := h.1
    have e5 : (ks ++ [k]).length = ks.length + 1 := by simp
    unfold crt_after
    exact ⟨by omega, by omega⟩

theorem sec6_after_facts (n : Nat) :
    (sec6_after n).size = n + 1 ∧ maxKeyNum (sec6_after n).keys = n ∧
      (sec6_after n).keys.length = n + 1 := by
  induction n with
  | zero => decide
  | succ n ih =>
    have hstep : sec6_after (n + 1) = sec6_add (sec6_after n) :=
      Function.iterate_succ_apply' _ _ _
    have hmax : ∀ (l : List (Nat × Nat)) (k : Nat × Nat),
        maxKeyNum (l ++ [k]) = max (maxKeyNum l) k.1 := by
      intro l k
      induction l with
      | nil => simp [maxKeyNum]
      | cons x t iht =>
        unfold maxKeyNum at *
        simp only [List.cons_append, List.foldr_cons] at *
        rw [iht, Nat.max_assoc]
    rw [hstep]
    unfold sec6_add
    refine ⟨by simp [ih.1], ?_, by simp [ih.2.2]⟩
    simp only [hmax, ih.2.1]
    omega

/-- C6 (amended): for any section built by `FileSection.setup` followed by
`add_pdf_object` calls - the original section or an update set up the same
way - the trailer's size counter equals the number of that section's own
cross-reference entries, which is one more than the largest object number
used in that section; it does not consult other sections. -/
theorem section_size_counts_own_entries (n : Nat) :
    (sec6_after n).size = (sec6_after n).keys.length ∧
    (sec6_after n).size = 1 + maxKeyNum (sec6_after n).keys := by
  have h := sec6_after_facts n
  rw [h.1, h.2.1, h.2.2]
  omega

/-- C6 counterexample: in the document built by `setup`, `add_update` (with
the update section set up) and one `add_pdf_object`, the update section's
trailer writes `/Size 2`, but one plus the maximum object number in use
across all sections is 3 - so not every section's `/Size` equals
`1 + max object number`. -/
theorem update_section_size_not_global_max :
    badFile6.sections.map Sec6.size = [3, 2] ∧
    1 + file6_max badFile6 = 3 ∧
    ¬ (∀ s ∈ badFile6.sections, s.size = 1 + file6_max badFile6) := by decide

/-- C9 counterexample: after `setup`, one `add_pdf_object` and two
`release_pdf_object` calls on the same object - a sequence of exactly the
operations the claim quantifies over - the body has two free entries but
following `next-free` twice from the zeroth object ends at object index 1,
not back at the zeroth. -/
theorem free_list_double_release_breaks_closure :
    numFree badBodyState = 2 ∧
    (stepFree badBodyState)^[numFree badBodyState] 0 = 1 ∧ (1 : Nat) ≠ 0 := by decide

/-- C5 counterexample: in the serialized empty document the header's last
byte sits at offset 17, offset 18 holds a single newline, and offset 19
already holds the first byte of the body's first object - the adjacent
top-level units are separated by exactly one newline byte, not two. -/
theorem header_body_single_newline :
    emptyOut.get? 17 = some (Char.ofNat 147) ∧
    emptyOut.get? 18 = some nl ∧
    emptyOut.get? 19 = some '1' ∧ ('1' : Char) ≠ nl := by decide

/-- C1 counterexample: in the two-section document, the second section's
recorded offsets overshoot the bytes by one: its `startxref` value does not
point at the `xref` keyword, and seeking to its in-use entry's offset reads
the line ` 0 obj` instead of `1 0 obj`. -/
theorem second_section_offsets_wrong :
    ∃ so ∈ twoSecInfos,
      ¬ bytesAt twoSecOut so.crtOff "xref".toList ∧
      ∃ e ∈ so.offsets, lineAt twoSecOut e.2 ≠ objHeaderLine e.1.1 e.1.2 := by decide

/-! ### Byte-offset correctness for single-section documents (C1, C5) -/

theorem takeWhile_until_nl (t : Bytes) :
    ∀ good : Bytes, (∀ c ∈ good, c ≠ nl) →
      (good ++ nl :: t).takeWhile (· != nl) = good := by
  intro good
  induction good with
  | nil => simp
  | cons c cs ih =>
    intro hg
    have hc : (c != nl) = true := bne_iff_ne.mpr (hg c (by simp))
    simp only [List.cons_append, List.takeWhile_cons, hc, if_true]
    rw [ih (fun x hx => hg x (by simp [hx]))]

theorem objHeaderLine_no_nl (n g : Nat) : ∀ c ∈ objHeaderLine n g, c ≠ nl := by
  intro c hc
  unfold objHeaderLine at hc
  rcases List.mem_append.mp hc with h | h
  · rcases List.mem_append.mp h with h | h
    · exact natRepr_no_newline n c h
    · rcases List.mem_cons.mp h with rfl | h
      · decide
      · exact natRepr_no_newline g c h
  · have h4 : c ∈ [' ', 'o', 'b', 'j'] := h
    fin_cases h4 <;> decide

theorem fmtIndirect_decomp (o : MObj) :
    fmtIndirect o
      = objHeaderLine o.num o.gen ++ nl :: (o.contents ++ nl :: "endobj".toList) := by
  unfold fmtIndirect objHeaderLine
  simp [List.append_assoc]

theorem bodyBytes_cons_cons (o o₂ : MObj) (rest : List MObj) :
    bodyBytes (o :: o₂ :: rest) = fmtIndirect o ++ nl :: bodyBytes (o₂ :: rest) := rfl

theorem bodyBytes_single (o : MObj) : bodyBytes [o] = fmtIndirect o := rfl

theorem lineAt_of_split (pre q : Bytes) (n g : Nat) :
    lineAt (pre ++ (objHeaderLine n g ++ nl :: q)) pre.length = objHeaderLine n g := by
  unfold lineAt
  rw [List.drop_left]
  exact takeWhile_until_nl q (objHeaderLine n g) (objHeaderLine_no_nl n g)

theorem bodyOffsets_lineAt :
    ∀ (objs : List MObj) (pre post : Bytes) (e : (Nat × Nat) × Nat),
      e ∈ bodyOffsets pre.length objs →
      lineAt (pre ++ (bodyBytes objs ++ post)) e.2 = objHeaderLine e.1.1 e.1.2 := by
  intro objs
  induction objs with
  | nil => intro pre post e he; cases he
  | cons o rest ih =>
    intro pre post e he
    rw [bodyOffsets] at he
    rcases List.mem_cons.mp he with rfl | he
    · have hsplit : ∃ q,
          bodyBytes (o :: rest) ++ post
            = objHeaderLine o.num o.gen ++ nl :: q := by
        cases rest with
        | nil =>
          refine ⟨o.contents ++ nl :: "endobj".toList ++ post, ?_⟩
          rw [bodyBytes_single, fmtIndirect_decomp]
          simp [List.append_assoc]
        | cons o₂ r₂ =>
          refine ⟨o.contents ++ nl :: "endobj".toList
              ++ nl :: bodyBytes (o₂ :: r₂) ++ post, ?_⟩
          rw [bodyBytes_cons_cons, fmtIndirect_decomp]
          simp [List.append_assoc]
      rcases hsplit with ⟨q, hq⟩
      show lineAt (pre ++ (bodyBytes (o :: rest) ++ post)) pre.length
        = objHeaderLine o.num o.gen
      rw [hq]
      exact lineAt_of_split pre q o.num o.gen
    · cases rest with
      | nil => cases he
      | cons o₂ r₂ =>
        have hpre : (pre ++ (fmtIndirect o ++ [nl])).length
            = pre.length + (fmtIndirect o).length + 1 := by
          simp
          omega
        have he' : e ∈ bodyOffsets (pre ++ (fmtIndirect o ++ [nl])).length (o₂ :: r₂) := by
          rw [hpre]; exact he
        have hres := ih (pre ++ (fmtIndirect o ++ [nl])) post e he'
        have heq : pre ++ (bodyBytes (o :: o₂ :: r₂) ++ post)
            = (pre ++ (fmtIndirect o ++ [nl])) ++ (bodyBytes (o₂ :: r₂) ++ post) := by
          rw [bodyBytes_cons_cons]
          simp [List.append_assoc]
        rw [heq]
        exact hres

theorem fmtSection_bytes (root : Nat × Nat) (cur : Nat) (sec : MSec) :
    (fmtSection root cur sec).1.bytes
      = bodyBytes sec.objs
        ++ nl :: (crtBytes (1 + sec.objs.length) (crtEntryFree sec.zerothNextNum)
            ((bodyOffsets cur sec.objs).map fun e => crtEntryInUse e.2 e.1.2)
          ++ nl :: trailerBytes root sec.size (cur + (bodyBytes sec.objs).length + 1)) := by
  unfold fmtSection
  simp [List.append_assoc]

theorem fmtSection_offsets (root : Nat × Nat) (cur : Nat) (sec : MSec) :
    (fmtSection root cur sec).1.offsets = bodyOffsets cur sec.objs := rfl

theorem fmtSection_crtOff (root : Nat × Nat) (cur : Nat) (sec : MSec) :
    (fmtSection root cur sec).1.crtOff = cur + (bodyBytes sec.objs).length + 1 := rfl

theorem crtBytes_head (cnt : Nat) (f : Bytes) (i : List Bytes) :
    ∃ r, crtBytes cnt f i = "xref".toList ++ r := by
  refine ⟨nl :: '0' :: ' ' :: natRepr cnt ++ nl :: (f ++ i.flatten), ?_⟩
  unfold crtBytes
  simp [List.append_assoc]

/-- C1 (amended to documents with a single file section): the trailer's
`startxref` value is the byte offset of the `xref` keyword, and for every
in-use entry `(N, G)` recorded in the body's offset map, the line beginning
at that entry's offset in the output is exactly `N G obj`. -/
theorem single_section_offsets_correct (hdr : Bytes) (root : Nat × Nat) (sec : MSec) :
    ∀ so ∈ fileSecOuts hdr root [sec],
      bytesAt (fileBytes hdr root [sec]) so.crtOff "xref".toList ∧
      ∀ e ∈ so.offsets,
        lineAt (fileBytes hdr root [sec]) e.2 = objHeaderLine e.1.1 e.1.2 := by
  intro so hso
  have hlist : fileSecOuts hdr root [sec]
      = [(fmtSection root (hdr.length + 1) sec).1] := rfl
  rw [hlist] at hso
  rw [List.mem_singleton] at hso
  subst hso
  have hout : fileBytes hdr root [sec]
      = hdr ++ nl :: (fmtSection root (hdr.length + 1) sec).1.bytes := rfl
  constructor
  · -- the crt offset points at the `xref` keyword
    rw [fmtSection_crtOff]
    rcases crtBytes_head (1 + sec.objs.length) (crtEntryFree sec.zerothNextNum)
        ((bodyOffsets (hdr.length + 1) sec.objs).map fun e => crtEntryInUse e.2 e.1.2)
      with ⟨r, hr⟩
    have hshape : fileBytes hdr root [sec]
        = (hdr ++ nl :: (bodyBytes sec.objs ++ [nl]))
          ++ ("xref".toList
            ++ (r ++ nl :: trailerBytes root sec.size
                (hdr.length + 1 + (bodyBytes sec.objs).length + 1))) := by
      rw [hout, fmtSection_bytes, hr]
      simp [List.append_assoc]
    have hplen : (hdr ++ nl :: (bodyBytes sec.objs ++ [nl])).length
        = hdr.length + 1 + (bodyBytes sec.objs).length + 1 := by
      simp
      omega
    unfold bytesAt
    rw [hshape, ← hplen, List.drop_left, ← List.append_assoc]
    exact List.take_left ..
  · -- every recorded offset reads back its object's header line
    intro e he
    rw [fmtSection_offsets] at he
    have he' : e ∈ bodyOffsets (hdr ++ [nl]).length sec.objs := by
      have h1 : (hdr ++ [nl]).length = hdr.length + 1 := by simp
      rw [h1]; exact he
    have hshape2 : fileBytes hdr root [sec]
        = (hdr ++ [nl])
          ++ (bodyBytes sec.objs
            ++ (nl :: (crtBytes (1 + sec.objs.length) (crtEntryFree sec.zerothNextNum)
                  ((bodyOffsets (hdr.length + 1) sec.objs).map
                    fun e => crtEntryInUse e.2 e.1.2)
              ++ nl :: trailerBytes root sec.size
                (hdr.length + 1 + (bodyBytes sec.objs).length + 1)))) := by
      rw [hout, fmtSection_bytes]
      simp [List.append_assoc]
    rw [hshape2]
    exact bodyOffsets_lineAt sec.objs (hdr ++ [nl]) _ e he'

theorem single_section_offsets_correct_witness :
    ∃ so ∈ fileSecOuts hdr14 (2, 0) [emptySec],
      bytesAt (fileBytes hdr14 (2, 0) [emptySec]) so.crtOff "xref".toList ∧
      ∀ e ∈ so.offsets,
        lineAt (fileBytes hdr14 (2, 0) [emptySec]) e.2 = objHeaderLine e.1.1 e.1.2 := by
  have hmem : (fmtSection (2, 0) (hdr14.length + 1) emptySec).1
      ∈ fileSecOuts hdr14 (2, 0) [emptySec] := List.mem_singleton.mpr rfl
  exact ⟨_, hmem, single_section_offsets_correct hdr14 (2, 0) emptySec _ hmem⟩

theorem endsNl_append (a b : Bytes) (h : ∃ b', b = b' ++ [nl]) :
    ∃ c', a ++ b = c' ++ [nl] := by
  rcases h with ⟨b', rfl⟩
  exact ⟨a ++ b', by simp [List.append_assoc]⟩

theorem endsNl_cons (c : Char) (t : Bytes) (h : ∃ t', t = t' ++ [nl]) :
    ∃ c', c :: t = c' ++ [nl] := by
  rcases h with ⟨t', rfl⟩
  exact ⟨c :: t', rfl⟩

theorem flatten_endsNl :
    ∀ l : List Bytes, (∀ e ∈ l, ∃ e', e = e' ++ [nl]) →
      l.flatten = [] ∨ ∃ f', l.flatten = f' ++ [nl]
  | [], _ => Or.inl rfl
  | e :: r, h => by
    rcases flatten_endsNl r (fun x hx => h x (by simp [hx])) with hr | hf
    · right
      rcases h e (by simp) with ⟨e', he⟩
      refine ⟨e', ?_⟩
      show e ++ r.flatten = e' ++ [nl]
      rw [hr, he]
      simp
    · right
      show ∃ f', e ++ r.flatten = f' ++ [nl]
      exact endsNl_append e r.flatten hf

theorem crtEntryInUse_endsNl (off gen : Nat) :
    ∃ e', crtEntryInUse off gen = e' ++ [nl] := by
  refine ⟨padZeros 10 (natRepr off) ++ ' ' :: padZeros 5 (natRepr gen) ++ " n ".toList, ?_⟩
  unfold crtEntryInUse
  simp [List.append_assoc]

theorem crtEntryFree_endsNl (z : Nat) : ∃ e', crtEntryFree z = e' ++ [nl] := by
  refine ⟨padZeros 10 (natRepr z) ++ " 65535 f ".toList, ?_⟩
  unfold crtEntryFree
  simp [List.append_assoc]

theorem crtBytes_endsNl (cnt z : Nat) (entries : List Bytes)
    (he : ∀ e ∈ entries, ∃ e', e = e' ++ [nl]) :
    ∃ c', crtBytes cnt (crtEntryFree z) entries = c' ++ [nl] := by
  have hfe : ∃ b', crtEntryFree z ++ entries.flatten = b' ++ [nl] := by
    rcases flatten_endsNl entries he with hl | hl
    · rw [hl]
      simpa using crtEntryFree_endsNl z
    · exact endsNl_append _ _ hl
  unfold crtBytes
  exact endsNl_append _ _ (endsNl_cons _ _ hfe)

theorem fmtSections_mem_shape (root : Nat × Nat) :
    ∀ (secs : List MSec) (cur : Nat) (so : SecOut),
      so ∈ (fmtSections root cur secs).1 →
      ∃ sec cur', so = (fmtSection root cur' sec).1 := by
  intro secs
  induction secs with
  | nil => intro cur so hso; cases hso
  | cons s r ih =>
    intro cur so hso
    rw [fmtSections] at hso
    rcases List.mem_cons.mp hso with rfl | hso
    · exact ⟨s, cur, rfl⟩
    · exact ih _ so hso

theorem fmtSection_cur (root : Nat × Nat) (cur : Nat) (sec : MSec) :
    (fmtSection root cur sec).2 = cur + (fmtSection root cur sec).1.bytes.length + 1 := by
  unfold fmtSection
  simp
  omega

theorem fmtSections_cur (root : Nat × Nat) :
    ∀ (secs : List MSec) (cur : Nat),
      (fmtSections root cur secs).2
        = cur + (((fmtSections root cur secs).1.map fun so => so.bytes.length).sum
            + 2 * secs.length) := by
  intro secs
  induction secs with
  | nil => intro cur; simp [fmtSections]
  | cons s r ih =>
    intro cur
    have h1 := fmtSection_cur root cur s
    have h2 := ih ((fmtSection root cur s).2 + 1)
    rw [fmtSections]
    simp only [List.map_cons, List.sum_cons, List.length_cons]
    rw [h2, h1]
    ring

theorem fmtSections_length (root : Nat × Nat) :
    ∀ (secs : List MSec) (cur : Nat),
      (fmtSections root cur secs).1.length = secs.length := by
  intro secs
  induction secs with
  | nil => intro cur; rfl
  | cons s r ih =>
    intro cur
    rw [fmtSections]
    simp only [List.length_cons]
    rw [ih]

theorem joinNL_length :
    ∀ l : List Bytes, l ≠ [] →
      (joinNL l).length + 1 = (l.map List.length).sum + l.length
  | [], h => absurd rfl h
  | [x], _ => by simp [joinNL]
  | x :: y :: t, _ => by
    have ih := joinNL_length (y :: t) (by simp)
    rw [joinNL]
    simp only [List.length_append, List.length_cons, List.map_cons, List.sum_cons] at *
    omega

/-- C5 (amended): the serializer joins adjacent top-level units with a
single newline, not two; since the crt section's own text ends with its
entries' final newline, exactly two newline bytes end up before each
trailer, but only one separates the header from the body and one separates
a trailer from the next section.  The offset accounting adds one byte per
join inside a section, and one further byte per section that the output
does not contain, so the final accounting value exceeds the output length
by one plus the number of sections. -/
theorem separator_accounting (hdr : Bytes) (root : Nat × Nat) (secs : List MSec)
    (hs : secs ≠ []) :
    fileBytes hdr root secs
      = hdr ++ nl :: joinNL ((fileSecOuts hdr root secs).map SecOut.bytes) ∧
    (∀ so ∈ fileSecOuts hdr root secs,
      ∃ b c t, so.bytes = b ++ nl :: (c ++ nl :: nl :: t)) ∧
    fileFinalCur hdr root secs = (fileBytes hdr root secs).length + 1 + secs.length := by
  refine ⟨rfl, ?_, ?_⟩
  · intro so hso
    rcases fmtSections_mem_shape root secs (hdr.length + 1) so hso with ⟨sec, cur', rfl⟩
    rcases crtBytes_endsNl (1 + sec.objs.length) sec.zerothNextNum
        ((bodyOffsets cur' sec.objs).map fun e => crtEntryInUse e.2 e.1.2)
        (by
          intro e he
          rcases List.mem_map.mp he with ⟨a, _, rfl⟩
          exact crtEntryInUse_endsNl a.2 a.1.2)
      with ⟨c', hc⟩
    refine ⟨bodyBytes sec.objs, c',
      trailerBytes root sec.size (cur' + (bodyBytes sec.objs).length + 1), ?_⟩
    rw [fmtSection_bytes, hc]
    simp [List.append_assoc]
  · have hcur := fmtSections_cur root secs (hdr.length + 1)
    have hjl := joinNL_length ((fmtSections root (hdr.length + 1) secs).1.map SecOut.bytes)
      (by
        intro hnil
        have := congrArg List.length hnil
        rw [List.length_map, fmtSections_length] at this
        exact hs (List.length_eq_zero.mp this))
    have hml : (((fmtSections root (hdr.length + 1) secs).1.map SecOut.bytes).map
          List.length).sum
        = ((fmtSections root (hdr.length + 1) secs).1.map fun so => so.bytes.length).sum := by
      rw [List.map_map]
      rfl
    have hlen2 : ((fmtSections root (hdr.length + 1) secs).1.map SecOut.bytes).length
        = secs.length := by
      rw [List.length_map, fmtSections_length]
    have hob : (fileBytes hdr root secs).length
        = hdr.length + 1 + (joinNL ((fmtSections root (hdr.length + 1) secs).1.map
            SecOut.bytes)).length := by
      show (hdr ++ nl :: joinNL _).length = _
      simp
      omega
    have hfc : fileFinalCur hdr root secs = (fmtSections root (hdr.length + 1) secs).2 := rfl
    rw [hfc, hob, hcur]
    rw [hml] at hjl
    rw [hlen2] at hjl
    omega

theorem separator_accounting_witness :
    ([emptySec] : List MSec) ≠ [] ∧
    (fileBytes hdr14 (2, 0) [emptySec]
        = hdr14 ++ nl :: joinNL ((fileSecOuts hdr14 (2, 0) [emptySec]).map SecOut.bytes) ∧
      (∀ so ∈ fileSecOuts hdr14 (2, 0) [emptySec],
        ∃ b c t, so.bytes = b ++ nl :: (c ++ nl :: nl :: t)) ∧
      fileFinalCur hdr14 (2, 0) [emptySec]
        = (fileBytes hdr14 (2, 0) [emptySec]).length + 1 + [emptySec].length) :=
  ⟨by simp, separator_accounting hdr14 (2, 0) [emptySec] (by simp)⟩

/-! ### Free-list closure (C9) -/

theorem modifyAt_length :
    ∀ (l : List FreeObj) (i : Nat) (f : FreeObj → FreeObj),
      (modifyAt l i f).length = l.length
  | [], _, _ => rfl
  | _ :: _, 0, _ => rfl
  | x :: xs, i + 1, f => by
    show (x :: modifyAt xs i f).length = (x :: xs).length
    simp [modifyAt_length xs i f]

theorem modifyAt_get?_same :
    ∀ (l : List FreeObj) (i : Nat) (f : FreeObj → FreeObj),
      (modifyAt l i f).get? i = (l.get? i).map f
  | [], i, f => by cases i <;> rfl
  | _ :: _, 0, _ => rfl
  | x :: xs, i + 1, f => by
    show (x :: modifyAt xs i f).get? (i + 1) = ((x :: xs).get? (i + 1)).map f
    simp only [List.get?_cons_succ]
    exact modifyAt_get?_same xs i f

theorem modifyAt_get?_other :
    ∀ (l : List FreeObj) (i : Nat) (f : FreeObj → FreeObj) (j : Nat), j ≠ i →
      (modifyAt l i f).get? j = l.get? j
  | [], _, _, _, _ => by rfl
  | _ :: _, 0, _, 0, h => absurd rfl h
  | _ :: _, 0, _, _ + 1, _ => rfl
  | _ :: _, _ + 1, _, 0, _ => rfl
  | x :: xs, i + 1, f, j + 1, h => by
    show (x :: modifyAt xs i f).get? (j + 1) = (x :: xs).get? (j + 1)
    simp only [List.get?_cons_succ]
    exact modifyAt_get?_other xs i f j (fun he => h (congrArg Nat.succ he))

theorem filter_length_modifyAt_pres (p : FreeObj → Bool) :
    ∀ (l : List FreeObj) (i : Nat) (f : FreeObj → FreeObj),
      (∀ o, p (f o) = p o) →
      ((modifyAt l i f).filter p).length = (l.filter p).length
  | [], _, _, _ => rfl
  | x :: xs, 0, f, h => by
    show ((f x :: xs).filter p).length = ((x :: xs).filter p).length
    simp only [List.filter_cons, h x]
    cases hp : p x <;> simp [hp]
  | x :: xs, i + 1, f, h => by
    show ((x :: modifyAt xs i f).filter p).length = ((x :: xs).filter p).length
    simp only [List.filter_cons]
    cases hp : p x <;> simp [filter_length_modifyAt_pres p xs i f h]

theorem filter_length_modifyAt_set (p : FreeObj → Bool) :
    ∀ (l : List FreeObj) (i : Nat) (f : FreeObj → FreeObj) (o : FreeObj),
      l.get? i = some o → p o = false → p (f o) = true →
      ((modifyAt l i f).filter p).length = (l.filter p).length + 1
  | [], i, _, _, h, _, _ => by cases i <;> cases h
  | x :: xs, 0, f, o, h, hpo, hpf => by
    have hx : x = o := by
      have : some x = some o := h
      injection this
    subst hx
    show ((f x :: xs).filter p).length = ((x :: xs).filter p).length + 1
    simp [List.filter_cons, hpo, hpf]
  | x :: xs, i + 1, f, o, h, hpo, hpf => by
    have hr := filter_length_modifyAt_set p xs i f o h hpo hpf
    show ((x :: modifyAt xs i f).filter p).length = ((x :: xs).filter p).length + 1
    simp only [List.filter_cons]
    cases hp : p x <;> simp [hr]

theorem chain_next_congr (f g : Nat → Option Nat) :
    ∀ l : List Nat, (∀ a ∈ l.dropLast, f a = g a) →
      List.Chain' (fun a b => f a = some b) l →
      List.Chain' (fun a b => g a = some b) l
  | [], _, _ => List.chain'_nil
  | [x], _, _ => List.chain'_singleton x
  | x :: y :: t, h, hc => by
    rw [List.chain'_cons] at hc ⊢
    refine ⟨?_, chain_next_congr f g (y :: t) (fun a ha => h a ?_) hc.2⟩
    · rw [← h x (by show x ∈ x :: (y :: t).dropLast; simp)]
      exact hc.1
    · show a ∈ (x :: y :: t).dropLast
      show a ∈ x :: (y :: t).dropLast
      simp [ha]

theorem chain_iterate (s : BodyState) :
    ∀ (M : List Nat) (x z : Nat),
      List.Chain' (fun a b => nextOf s a = some b) (x :: M) →
      (x :: M).getLast? = some z →
      (stepFree s)^[M.length] x = z
  | [], x, z, _, hz => Option.some.inj hz
  | y :: t, x, z, hc, hz => by
    rw [List.chain'_cons] at hc
    have hstep : stepFree s x = y := by
      unfold stepFree
      rw [show (s.objs.get? x).bind FreeObj.nextFree = some y from hc.1]
      rfl
    have hz' : (y :: t).getLast? = some z := by
      rw [← List.getLast?_cons_cons (l := t) (a := x) (b := y)]
      exact hz
    show (stepFree s)^[t.length + 1] x = z
    rw [Function.iterate_succ_apply, hstep]
    exact chain_iterate s t y z hc.2 hz'

theorem head?_zero_decomp {L : List Nat} (h : L.head? = some 0) : ∃ t, L = 0 :: t := by
  cases L with
  | nil => simp at h
  | cons a t =>
    have ha : a = 0 := by injection h
    subst ha
    exact ⟨t, rfl⟩

theorem headz_mem {L : List Nat} (h : L.head? = some 0) : (0 : Nat) ∈ L := by
  rcases head?_zero_decomp h with ⟨t, rfl⟩
  exact List.mem_cons_self 0 t

theorem freeInv_setup : FreeInv body_setup [0] := by
  refine ⟨rfl, by simp, ?_, ?_, rfl, ?_, rfl, ?_⟩
  · intro i hi
    rw [List.mem_singleton] at hi
    subst hi
    decide
  · intro i o h
    cases i with
    | zero =>
      have h' : some (⟨0, 65535, true, some 0⟩ : FreeObj) = some o := h
      cases h'
      simp
    | succ n =>
      have h' : (none : Option FreeObj) = some o := h
      cases h'
  · exact List.chain'_cons.mpr ⟨rfl, List.chain'_singleton 0⟩
  · intro o h
    have : some (⟨0, 65535, true, some 0⟩ : FreeObj) = some o := h
    cases this
    exact ⟨rfl, rfl⟩

theorem freeInv_add {s : BodyState} {L : List Nat} (h : FreeInv s L) :
    FreeInv (add_pdf_object s) L := by
  have hget : ∀ i, i < s.objs.length →
      (add_pdf_object s).objs.get? i = s.objs.get? i := by
    intro i hi
    exact List.get?_append hi
  have h0L : 0 ∈ L := headz_mem h.headz
  refine ⟨h.headz, h.nodup, ?_, ?_, h.tailIs, ?_, ?_, ?_⟩
  · intro i hi
    have := h.bounded i hi
    show i < (s.objs ++ [_]).length
    simp
    omega
  · intro i o hio
    by_cases hi : i < s.objs.length
    · rw [hget i hi] at hio
      exact h.freeIff i o hio
    · by_cases hieq : i = s.objs.length
      · subst hieq
        have : some (⟨maxObjNum s.objs + 1, 0, false, none⟩ : FreeObj) = some o := by
          rw [← hio]
          exact (List.get?_concat_length s.objs _).symm
        cases this
        simp only [show (false = true) = False by simp]
        constructor
        · intro hfalse
          cases hfalse
        · intro hmem
          exact absurd (h.bounded _ hmem) (by omega)
      · have hnone : (add_pdf_object s).objs.get? i = none := by
          rw [List.get?_eq_none]
          show (s.objs ++ [_]).length ≤ i
          simp
          omega
        rw [hnone] at hio
        cases hio
  · refine chain_next_congr (nextOf s) (nextOf (add_pdf_object s)) (L ++ [0]) ?_ h.links
    intro a ha
    have haL : a ∈ L ++ [0] := List.dropLast_subset _ ha
    have halen : a < s.objs.length := by
      rcases List.mem_append.mp haL with h1 | h1
      · exact h.bounded a h1
      · rw [List.mem_singleton] at h1
        subst h1
        exact h.bounded 0 h0L
    unfold nextOf
    rw [hget a halen]
  · show numFree (add_pdf_object s) = L.length
    unfold numFree add_pdf_object at *
    rw [List.filter_append]
    simpa using h.count
  · intro o ho
    rw [hget 0 (h.bounded 0 h0L)] at ho
    exact h.zeroth o ho

theorem getLast?_eq_some_decomp {l : List Nat} {a : Nat} (h : l.getLast? = some a) :
    l.dropLast ++ [a] = l :=
  List.dropLast_append_getLast? a h

theorem freeInv_release {s : BodyState} {L : List Nat} (i : Nat)
    (hi : i < s.objs.length)
    (hf : ∀ o, s.objs.get? i = some o → o.free = false)
    (h : FreeInv s L) : FreeInv (release_pdf_object s i) (L ++ [i]) := by
  obtain ⟨oi, hoi⟩ : ∃ o, s.objs.get? i = some o := by
    cases hx : s.objs.get? i with
    | none => rw [List.get?_eq_none] at hx; omega
    | some o => exact ⟨o, rfl⟩
  have hinotL : i ∉ L := by
    intro hiL
    have := (h.freeIff i oi hoi).mpr hiL
    rw [hf oi hoi] at this
    cases this
  have htailL : s.tail ∈ L := by
    rcases List.mem_getLast?_eq_getLast h.tailIs with ⟨hne, heq⟩
    rw [heq]
    exact List.getLast_mem hne
  have htaili : s.tail ≠ i := fun he => hinotL (he ▸ htailL)
  obtain ⟨ot, hot⟩ : ∃ o, s.objs.get? s.tail = some o := by
    cases hx : s.objs.get? s.tail with
    | none =>
      rw [List.get?_eq_none] at hx
      exact absurd (h.bounded _ htailL) (by omega)
    | some o => exact ⟨o, rfl⟩
  have h0L : 0 ∈ L := headz_mem h.headz
  have hi0 : i ≠ 0 := fun he => hinotL (he ▸ h0L)
  have hlen2 : (release_pdf_object s i).objs.length = s.objs.length := by
    show (modifyAt (modifyAt s.objs i _) s.tail _).length = s.objs.length
    rw [modifyAt_length, modifyAt_length]
  have hgOther : ∀ j, j ≠ i → j ≠ s.tail →
      (release_pdf_object s i).objs.get? j = s.objs.get? j := by
    intro j hj1 hj2
    show (modifyAt (modifyAt s.objs i _) s.tail _).get? j = s.objs.get? j
    rw [modifyAt_get?_other _ _ _ _ hj2, modifyAt_get?_other _ _ _ _ hj1]
  have hgI : (release_pdf_object s i).objs.get? i
      = some { oi with nextFree := some 0, free := true } := by
    show (modifyAt (modifyAt s.objs i _) s.tail _).get? i = _
    rw [modifyAt_get?_other _ _ _ _ (fun he => htaili he.symm), modifyAt_get?_same, hoi]
    rfl
  have hgT : (release_pdf_object s i).objs.get? s.tail
      = some { ot with nextFree := some i } := by
    show (modifyAt (modifyAt s.objs i _) s.tail _).get? s.tail = _
    rw [modifyAt_get?_same, modifyAt_get?_other _ _ _ _ htaili, hot]
    rfl
  have htailfree : ot.free = true := (h.freeIff _ ot hot).mpr htailL
  refine ⟨?_, ?_, ?_, ?_, ?_, ?_, ?_, ?_⟩
  · -- head stays the zeroth
    rcases head?_zero_decomp h.headz with ⟨t, hL⟩
    rw [hL]
    rfl
  · exact List.nodup_append.mpr
      ⟨h.nodup, List.nodup_singleton i,
        fun a haL => by
          rw [List.mem_singleton]
          intro he
          exact hinotL (he ▸ haL)⟩
  · intro j hj
    rw [hlen2]
    rcases List.mem_append.mp hj with h1 | h1
    · exact h.bounded j h1
    · rw [List.mem_singleton] at h1
      subst h1
      exact hi
  · intro j o hjo
    by_cases hji : j = i
    · subst hji
      rw [hgI] at hjo
      cases hjo
      simp
    · by_cases hjt : j = s.tail
      · subst hjt
        rw [hgT] at hjo
        cases hjo
        show ot.free = true ↔ _
        rw [htailfree]
        simp [htailL]
      · rw [hgOther j hji hjt] at hjo
        rw [h.freeIff j o hjo]
        simp [hji]
  · rw [List.getLast?_concat]
    rfl
  · -- links
    have hassoc : (L ++ [i]) ++ [0] = L ++ ([i] ++ [0]) := List.append_assoc ..
    rw [hassoc]
    have hLchain : List.Chain' (fun a b => nextOf s a = some b) L :=
      (List.chain'_append.mp h.links).1
    have hLdrop : L.dropLast ++ [s.tail] = L := getLast?_eq_some_decomp h.tailIs
    have hdropnotail : ∀ a ∈ L.dropLast, a ≠ s.tail := by
      intro a ha he
      have hnd : (L.dropLast ++ [s.tail]).Nodup := by rw [hLdrop]; exact h.nodup
      rcases List.nodup_append.mp hnd with ⟨_, _, hdisj⟩
      exact hdisj ha (by rw [List.mem_singleton, he])
    refine List.chain'_append.mpr ⟨?_, ?_, ?_⟩
    · refine chain_next_congr (nextOf s) (nextOf (release_pdf_object s i)) L ?_ hLchain
      intro a ha
      have haL : a ∈ L := List.dropLast_subset _ ha
      have hai : a ≠ i := fun he => hinotL (he ▸ haL)
      unfold nextOf
      rw [hgOther a hai (hdropnotail a ha)]
    · refine List.chain'_cons.mpr ⟨?_, List.chain'_singleton 0⟩
      unfold nextOf
      rw [hgI]
      rfl
    · intro x hx y hy
      have hx' : x = s.tail := by
        rw [h.tailIs] at hx
        have : some s.tail = some x := hx
        exact (Option.some.inj this).symm
      have hy' : y = i := by
        have : some i = some y := hy
        exact (Option.some.inj this).symm
      subst hx'
      subst hy'
      unfold nextOf
      rw [hgT]
      rfl
  · -- count
    show numFree (release_pdf_object s i) = (L ++ [i]).length
    have hstep1 : ((modifyAt s.objs i
        (fun o => { o with nextFree := some 0, free := true })).filter (·.free)).length
        = (s.objs.filter (·.free)).length + 1 := by
      exact filter_length_modifyAt_set _ s.objs i _ oi hoi (hf oi hoi) rfl
    have hstep2 : numFree (release_pdf_object s i)
        = ((modifyAt s.objs i
            (fun o => { o with nextFree := some 0, free := true })).filter (·.free)).length := by
      show ((modifyAt (modifyAt s.objs i _) s.tail _).filter (·.free)).length = _
      exact filter_length_modifyAt_pres _ _ s.tail _ (fun o => rfl)
    rw [hstep2, hstep1]
    have := h.count
    unfold numFree at this
    rw [this]
    simp
  · intro o ho
    by_cases h0t : (0 : Nat) = s.tail
    · rw [← h0t] at hgT
      rw [hgT] at ho
      cases ho
      rw [← h0t] at hot
      exact h.zeroth ot hot
    · rw [hgOther 0 (fun he => hi0 he.symm) h0t] at ho
      exact h.zeroth o ho

theorem freeInv_reachable {s : BodyState} (h : ReachableBody s) : ∃ L, FreeInv s L := by
  induction h with
  | setup => exact ⟨[0], freeInv_setup⟩
  | add _ ih =>
    rcases ih with ⟨L, hL⟩
    exact ⟨L, freeInv_add hL⟩
  | release i hi hfree _ ih =>
    rcases ih with ⟨L, hL⟩
    exact ⟨L ++ [i], freeInv_release i hi hfree hL⟩

/-- C9 (amended: among the three operations, `release_pdf_object` is applied
only to objects that are present and not already free - releasing an
already-free object corrupts the cycle): in every reachable body state the
zeroth object is `(0, 65535)` and free, and following `next-free` exactly
`K` times from it, where `K` is the number of free entries, returns to the
zeroth object. -/
theorem free_list_closure {s : BodyState} (h : ReachableBody s) :
    (∃ o, s.objs.get? 0 = some o ∧ o.num = 0 ∧ o.gen = 65535 ∧ o.free = true) ∧
    (stepFree s)^[numFree s] 0 = 0 := by
  rcases freeInv_reachable h with ⟨L, hL⟩
  rcases head?_zero_decomp hL.headz with ⟨L', rfl⟩
  have h0L : (0 : Nat) ∈ 0 :: L' := List.mem_cons_self 0 L'
  obtain ⟨o, ho⟩ : ∃ o, s.objs.get? 0 = some o := by
    cases hx : s.objs.get? 0 with
    | none =>
      rw [List.get?_eq_none] at hx
      exact absurd (hL.bounded 0 h0L) (by omega)
    | some o => exact ⟨o, rfl⟩
  refine ⟨⟨o, ho, (hL.zeroth o ho).1, (hL.zeroth o ho).2,
    (hL.freeIff 0 o ho).mpr h0L⟩, ?_⟩
  have hchain : List.Chain' (fun a b => nextOf s a = some b) (0 :: (L' ++ [0])) := by
    have := hL.links
    rwa [List.cons_append] at this
  have hlast : (0 :: (L' ++ [0])).getLast? = some 0 := by
    rw [show (0 : Nat) :: (L' ++ [0]) = (0 :: L') ++ [0] from rfl]
    exact List.getLast?_concat _
  have hiter := chain_iterate s (L' ++ [0]) 0 0 hchain hlast
  rw [hL.count]
  simpa using hiter

theorem free_list_closure_witness :
    (∃ o, relBodyState.objs.get? 0 = some o ∧ o.num = 0 ∧ o.gen = 65535 ∧
      o.free = true) ∧
    (stepFree relBodyState)^[numFree relBodyState] 0 = 0 :=
  free_list_closure (ReachableBody.release 1 (by decide)
    (fun o ho => by
      have ho' : some ({ num := 1, gen := 0, free := false, nextFree := none } : FreeObj)
          = some o := ho
      cases ho'
      rfl)
    (ReachableBody.add ReachableBody.setup))

set_option maxRecDepth 8000

/-- C2 (counterexample): round-trip is not the identity on the document
hierarchy.  Serializing the freshly set-up document and parsing the bytes
back succeeds, but the reconstructed catalog differs structurally from the
builder's: the page-tree node's `Resources` and `MediaBox` are absent,
because `PageTreeNode.setup` never writes them into the node's dictionary
and `PageTreeNode.from_object` never sets `media_box` at all. -/
theorem roundtrip_not_structural_equality :
    (readModel setupDocBytes).err = none ∧
    (readModel setupDocBytes).catalog = some parsedCatalog ∧
    parsedCatalog ≠ builderCatalog := by
  refine ⟨rfl, rfl, ?_⟩
  intro h
  simp [parsedCatalog, builderCatalog] at h

/-- C2: parse-after-serialize on the freshly set-up document succeeds and
returns exactly the expected sections, store, and catalog; the object
store round-trips structurally, and the document hierarchy round-trips up
to the loss of the page-tree node's inheritable attributes (`Resources`
and `MediaBox`), which are dropped by serialization. -/
theorem roundtrip_up_to_inherited_attributes :
    readModel setupDocBytes =
      ⟨true, some "1.4".toList, [expectedSec], expectedStore,
        some parsedCatalog, none⟩ ∧
    (readModel setupDocBytes).store = [((1, 0), pagesDictV), ((2, 0), catalogDictV)] ∧
    parsedCatalog.tree = stripNodeAttrs builderCatalog.tree ∧
    parsedCatalog.version = builderCatalog.version ∧
    parsedCatalog.pageLayout = builderCatalog.pageLayout :=
  ⟨rfl, rfl, rfl, rfl, rfl⟩

/-- C8 (counterexample): on the empty input `read` fails with a parse
error, yet the document's header attribute has already been assigned:
`PdfFile.parse` sets `self.header` before validating the first line, so
the failed read does not leave the fresh state intact. -/
theorem read_not_atomic_on_error :
    (readModel []).err = some .parse ∧
    (readModel []).headerAssigned = true ∧
    freshRead.headerAssigned = false :=
  ⟨rfl, rfl, rfl⟩

/-- C8: a failed `read` leaves partial state behind.  On every input the
header attribute ends up assigned, and on an input whose header line is
valid but whose body is garbage, the failed read additionally leaves the
parsed version behind. -/
theorem read_error_leaves_partial_state :
    (∀ input : Bytes, (readModel input).headerAssigned = true) ∧
    (readModel ("%PDF-1.4".toList ++ nl :: "garbage".toList)).err = some .parse ∧
    (readModel ("%PDF-1.4".toList ++ nl :: "garbage".toList)).version =
      some "1.4".toList := by
  refine ⟨?_, rfl, rfl⟩
  intro input
  unfold readModel
  dsimp only
  repeat' first | rfl | split

end Pdfalcon
